import Mathlib

/-!
Verification of the WindBorne balloon-constellation analytics engine.

The definitions below are a shallow embedding of the JavaScript analytics
code (haversine distance, coverage grid, density clustering, centroid
clustering with automatic k selection, silhouette scoring, convex hull).
JavaScript numbers are modelled by real numbers; the implicit global
`Math.random()` stream is modelled by an explicit stream `rand : ℕ → ℝ`
of values in `[0,1)` consumed in call order; `Infinity` sentinels are
modelled by `Option ℝ` with `none` standing for `Infinity`.
-/

noncomputable section

namespace WindBorne

open Real

/-- A position is a (latitude, longitude) pair; altitude is ignored by all
of the analysed routines, which read only `pos[0]` and `pos[1]`. -/
abbrev Pt : Type := ℝ × ℝ

/-- JavaScript `Math.atan2(y, x)`: the angle of the point `(x, y)` in
`(-π, π]`, with `atan2 0 0 = 0`. -/
def atan2 (y x : ℝ) : ℝ :=
  if 0 < x then Real.arctan (y / x)
  else if x < 0 then
    (if 0 ≤ y then Real.arctan (y / x) + Real.pi else Real.arctan (y / x) - Real.pi)
  else
    (if 0 < y then Real.pi / 2 else if y < 0 then -(Real.pi / 2) else 0)

/-- `haversineDistance(lat1, lon1, lat2, lon2)` from the source: great-circle
distance in km, Earth radius `R = 6371`. -/
def haversineDistance (lat1 lon1 lat2 lon2 : ℝ) : ℝ :=
  let R : ℝ := 6371
  let dLat := (lat2 - lat1) * Real.pi / 180
  let dLon := (lon2 - lon1) * Real.pi / 180
  let a := Real.sin (dLat / 2) * Real.sin (dLat / 2) +
      Real.cos (lat1 * Real.pi / 180) * Real.cos (lat2 * Real.pi / 180) *
      Real.sin (dLon / 2) * Real.sin (dLon / 2)
  let c := 2 * atan2 (Real.sqrt a) (Real.sqrt (1 - a))
  R * c

/-- Distance between two `Pt`s, as every caller invokes it:
`haversineDistance(p[0], p[1], q[0], q[1])`. -/
def hD (p q : Pt) : ℝ := haversineDistance p.1 p.2 q.1 q.2

lemma arctan_nonneg' {t : ℝ} (h : 0 ≤ t) : 0 ≤ Real.arctan t := by
  have := Real.arctan_strictMono.monotone h
  rwa [Real.arctan_zero] at this

lemma atan2_nonneg {y x : ℝ} (hy : 0 ≤ y) : 0 ≤ atan2 y x := by
  unfold atan2
  split_ifs with h1 h2 h3 h4 h5 <;>
    first
      | exact arctan_nonneg' (div_nonneg hy (le_of_lt h1))
      | exact absurd hy (by assumption)
      | positivity
      | (have harc := (Real.arctan_mem_Ioo (y / x)).1
         have hπ := Real.pi_pos
         linarith)

lemma haversine_nonneg (lat1 lon1 lat2 lon2 : ℝ) :
    0 ≤ haversineDistance lat1 lon1 lat2 lon2 := by
  unfold haversineDistance
  dsimp only
  refine mul_nonneg (by norm_num) ?_
  refine mul_nonneg (by norm_num) (atan2_nonneg (Real.sqrt_nonneg _))

lemma hD_nonneg (p q : Pt) : 0 ≤ hD p q := haversine_nonneg _ _ _ _

lemma atan2_zero_of_pos {x : ℝ} (hx : 0 < x) : atan2 0 x = 0 := by
  unfold atan2
  rw [if_pos hx, zero_div, Real.arctan_zero]

lemma haversine_self (lat lon : ℝ) : haversineDistance lat lon lat lon = 0 := by
  unfold haversineDistance
  simp only [sub_self, zero_mul, zero_div, Real.sin_zero, mul_zero, zero_add,
    add_zero, Real.sqrt_zero, sub_zero, Real.sqrt_one]
  rw [atan2_zero_of_pos one_pos]
  ring

lemma haversine_symm (lat1 lon1 lat2 lon2 : ℝ) :
    haversineDistance lat1 lon1 lat2 lon2 = haversineDistance lat2 lon2 lat1 lon1 := by
  unfold haversineDistance
  have h1 : (lat1 - lat2) * Real.pi / 180 / 2 = -((lat2 - lat1) * Real.pi / 180 / 2) := by ring
  have h2 : (lon1 - lon2) * Real.pi / 180 / 2 = -((lon2 - lon1) * Real.pi / 180 / 2) := by ring
  simp only [h1, h2, Real.sin_neg]
  ring_nf

lemma hD_self (p : Pt) : hD p p = 0 := haversine_self _ _

/-! Exact values of the haversine distance between two points on the
equator: the formula reduces to arc length along the equator, measured the
short way around. These evaluation lemmas drive all concrete
counterexample computations. -/

lemma atan2_sin_cos_of_le {t : ℝ} (h0 : 0 ≤ t) (h1 : t ≤ Real.pi / 2) :
    atan2 (Real.sin t) |Real.cos t| = t := by
  rcases lt_or_eq_of_le h1 with h | h
  · have hc : 0 < Real.cos t := by
      apply Real.cos_pos_of_mem_Ioo
      constructor
      · have := Real.pi_pos; linarith
      · exact h
    rw [abs_of_pos hc]
    unfold atan2
    rw [if_pos hc, ← Real.tan_eq_sin_div_cos, Real.arctan_tan (by have := Real.pi_pos; linarith) h]
  · subst h
    rw [Real.sin_pi_div_two, Real.cos_pi_div_two, abs_zero]
    unfold atan2
    rw [if_neg (lt_irrefl 0), if_neg (lt_irrefl 0), if_pos one_pos]

lemma atan2_sin_cos_of_ge {t : ℝ} (h0 : Real.pi / 2 ≤ t) (h1 : t ≤ Real.pi) :
    atan2 (Real.sin t) |Real.cos t| = Real.pi - t := by
  have h2 : Real.sin t = Real.sin (Real.pi - t) := (Real.sin_pi_sub t).symm
  have h3 : |Real.cos t| = |Real.cos (Real.pi - t)| := by
    rw [Real.cos_pi_sub, abs_neg]
  rw [h2, h3]
  exact atan2_sin_cos_of_le (by linarith) (by linarith)

lemma abs_sin_of_abs_le_pi {x : ℝ} (h : |x| ≤ Real.pi) : |Real.sin x| = Real.sin |x| := by
  rcases abs_cases x with ⟨he, hx⟩ | ⟨he, hx⟩
  · rw [he]
    exact abs_of_nonneg (Real.sin_nonneg_of_nonneg_of_le_pi hx (he ▸ h))
  · rw [he, Real.sin_neg, ← abs_neg (Real.sin x)]
    rw [show -Real.sin x = Real.sin (-x) by rw [Real.sin_neg]]
    exact abs_of_nonneg (Real.sin_nonneg_of_nonneg_of_le_pi (by linarith) (he ▸ h))

lemma haversine_equator_atan2 (l1 l2 : ℝ) :
    haversineDistance 0 l1 0 l2 =
      6371 * (2 * atan2 |Real.sin ((l2 - l1) * Real.pi / 360)|
        |Real.cos ((l2 - l1) * Real.pi / 360)|) := by
  unfold haversineDistance
  dsimp only
  have harg : (l2 - l1) * Real.pi / 180 / 2 = (l2 - l1) * Real.pi / 360 := by ring
  rw [sub_self, zero_mul, zero_div, zero_div, Real.sin_zero, Real.cos_zero, harg]
  have h1 : (0 : ℝ) * 0 + 1 * 1 * Real.sin ((l2 - l1) * Real.pi / 360) *
      Real.sin ((l2 - l1) * Real.pi / 360) =
      Real.sin ((l2 - l1) * Real.pi / 360) * Real.sin ((l2 - l1) * Real.pi / 360) := by ring
  rw [h1]
  have h2 : Real.sqrt (Real.sin ((l2 - l1) * Real.pi / 360) *
      Real.sin ((l2 - l1) * Real.pi / 360)) = |Real.sin ((l2 - l1) * Real.pi / 360)| := by
    rw [← sq, Real.sqrt_sq_eq_abs]
  have h3 : (1 : ℝ) - Real.sin ((l2 - l1) * Real.pi / 360) *
      Real.sin ((l2 - l1) * Real.pi / 360) = Real.cos ((l2 - l1) * Real.pi / 360) ^ 2 := by
    have := Real.sin_sq_add_cos_sq ((l2 - l1) * Real.pi / 360)
    nlinarith [this]
  rw [h2, h3, Real.sqrt_sq_eq_abs]

/-- On the equator, for longitude gap at most 180°, the haversine distance is
the direct arc `6371 · |Δλ| · π/180`. -/
lemma haversine_equator_near {l1 l2 : ℝ} (h : |l2 - l1| ≤ 180) :
    haversineDistance 0 l1 0 l2 = 6371 * (|l2 - l1| * Real.pi / 180) := by
  have hπ := Real.pi_pos
  rw [haversine_equator_atan2]
  have habs : |(l2 - l1) * Real.pi / 360| = |l2 - l1| * Real.pi / 360 := by
    rw [abs_div, abs_mul, abs_of_pos hπ]
    norm_num
  have hle : |l2 - l1| * Real.pi / 360 ≤ Real.pi / 2 := by
    rw [div_le_div_iff (by norm_num) (by norm_num)]
    nlinarith [abs_nonneg (l2 - l1)]
  have hsin : |Real.sin ((l2 - l1) * Real.pi / 360)| =
      Real.sin (|l2 - l1| * Real.pi / 360) := by
    rw [abs_sin_of_abs_le_pi (by rw [habs]; linarith), habs]
  have hcos : |Real.cos ((l2 - l1) * Real.pi / 360)| =
      |Real.cos (|l2 - l1| * Real.pi / 360)| := by
    rw [← Real.cos_abs ((l2 - l1) * Real.pi / 360), habs]
  rw [hsin, hcos, atan2_sin_cos_of_le (by positivity) hle]
  ring

/-- On the equator, for longitude gap between 180° and 360°, the haversine
formula wraps around: the distance is `6371 · (360 - |Δλ|) · π/180`. -/
lemma haversine_equator_far {l1 l2 : ℝ} (h1 : 180 ≤ |l2 - l1|) (h2 : |l2 - l1| ≤ 360) :
    haversineDistance 0 l1 0 l2 = 6371 * ((360 - |l2 - l1|) * Real.pi / 180) := by
  have hπ := Real.pi_pos
  rw [haversine_equator_atan2]
  have habs : |(l2 - l1) * Real.pi / 360| = |l2 - l1| * Real.pi / 360 := by
    rw [abs_div, abs_mul, abs_of_pos hπ]
    norm_num
  have hge : Real.pi / 2 ≤ |l2 - l1| * Real.pi / 360 := by
    rw [div_le_div_iff (by norm_num) (by norm_num)]
    nlinarith
  have hle : |l2 - l1| * Real.pi / 360 ≤ Real.pi := by
    rw [div_le_iff (by norm_num)]
    nlinarith
  have hsin : |Real.sin ((l2 - l1) * Real.pi / 360)| =
      Real.sin (|l2 - l1| * Real.pi / 360) := by
    rw [abs_sin_of_abs_le_pi (by rw [habs]; linarith), habs]
  have hcos : |Real.cos ((l2 - l1) * Real.pi / 360)| =
      |Real.cos (|l2 - l1| * Real.pi / 360)| := by
    rw [← Real.cos_abs ((l2 - l1) * Real.pi / 360), habs]
  rw [hsin, hcos, atan2_sin_cos_of_ge hge hle]
  ring

/-! ## Convex hull (`calculateConvexHull`, `isCounterClockwise`) -/

/-- `isCounterClockwise(p1, p2, p3)` from the source. -/
def isCounterClockwise (p1 p2 p3 : Pt) : Prop :=
  (p2.2 - p1.2) * (p3.1 - p2.1) - (p2.1 - p1.1) * (p3.2 - p2.2) > 0

instance isCounterClockwise.dec (p1 p2 p3 : Pt) : Decidable (isCounterClockwise p1 p2 p3) := by
  unfold isCounterClockwise; infer_instance

/-- The comparator passed to `sort` in `calculateConvexHull`: `a` precedes `b`
when `a`'s polar angle about the pivot is larger (the comparator returns
`angleB - angleA`), ties broken by squared distance, nearer first. -/
def sortBefore (low a b : Pt) : Prop :=
  atan2 (b.1 - low.1) (b.2 - low.2) < atan2 (a.1 - low.1) (a.2 - low.2) ∨
    (atan2 (a.1 - low.1) (a.2 - low.2) = atan2 (b.1 - low.1) (b.2 - low.2) ∧
      (a.1 - low.1) ^ 2 + (a.2 - low.2) ^ 2 ≤ (b.1 - low.1) ^ 2 + (b.2 - low.2) ^ 2)

instance sortBefore.dec (low : Pt) : DecidableRel (sortBefore low) := by
  intro a b; unfold sortBefore; infer_instance

/-- The inner `while` of the Graham scan: with the stack held top-first, pop
while the last two stack points and the candidate do not make a
counter-clockwise turn. -/
def grahamPop (pi : Pt) : List Pt → List Pt
  | h1 :: h2 :: rest =>
      if isCounterClockwise h2 h1 pi then h1 :: h2 :: rest
      else grahamPop pi (h2 :: rest)
  | l => l

/-- The pivot search of `calculateConvexHull`: the point with lowest first
coordinate, ties broken by lowest second coordinate. -/
def lowestPointOf : List Pt → Pt
  | [] => (0, 0)
  | p0 :: rest0 => rest0.foldl (fun low p =>
      if p.1 < low.1 ∨ (p.1 = low.1 ∧ p.2 < low.2) then p else low) p0

/-- `calculateConvexHull(points)` from the source: Graham scan, with the
stack modelled top-first and reversed at the end (the source pushes/pops at
the array's tail). -/
def calculateConvexHull (points : List Pt) : List Pt :=
  if points.length < 3 then points
  else
    let lowestPoint := lowestPointOf points
    let sortedPoints := List.insertionSort (sortBefore lowestPoint) points
    match sortedPoints with
    | s0 :: s1 :: srest =>
        (srest.foldl (fun hull pi => pi :: grahamPop pi hull) [s1, s0]).reverse
    | l => l

lemma grahamPop_mem {pi x : Pt} : ∀ {l : List Pt}, x ∈ grahamPop pi l → x ∈ l := by
  intro l
  induction l with
  | nil => intro h; exact h
  | cons h1 t ih =>
      cases t with
      | nil => intro h; exact h
      | cons h2 rest =>
          unfold grahamPop
          split_ifs with hc
          · exact fun h => h
          · intro h
            exact List.mem_cons_of_mem h1 (ih h)

lemma scan_foldl_mem {x : Pt} :
    ∀ (l : List Pt) (acc : List Pt),
      x ∈ l.foldl (fun hull pi => pi :: grahamPop pi hull) acc → x ∈ acc ∨ x ∈ l := by
  intro l
  induction l with
  | nil => intro acc h; exact Or.inl h
  | cons p rest ih =>
      intro acc h
      rcases ih (p :: grahamPop p acc) h with h1 | h1
      · rcases List.mem_cons.mp h1 with h2 | h2
        · exact Or.inr (h2 ▸ List.mem_cons_self p rest)
        · exact Or.inl (grahamPop_mem h2)
      · exact Or.inr (List.mem_cons_of_mem p h1)

/-- Every point of the hull returned by `calculateConvexHull` is an input
point. -/
lemma calculateConvexHull_subset {points : List Pt} {p : Pt}
    (hp : p ∈ calculateConvexHull points) : p ∈ points := by
  unfold calculateConvexHull at hp
  split_ifs at hp with hlen
  · exact hp
  · dsimp only at hp
    have hperm : List.Perm (List.insertionSort (sortBefore (lowestPointOf points)) points)
        points := List.perm_insertionSort _ _
    have hmem : p ∈ List.insertionSort (sortBefore (lowestPointOf points)) points := by
      rcases hsort : List.insertionSort (sortBefore (lowestPointOf points)) points with
        _ | ⟨s0, _ | ⟨s1, srest⟩⟩ <;> rw [hsort] at hp
      · exact absurd hp (List.not_mem_nil p)
      · exact hp
      · rw [List.mem_reverse] at hp
        rcases scan_foldl_mem srest [s1, s0] hp with h | h
        · rcases List.mem_cons.mp h with h1 | h1
          · subst h1; exact List.mem_cons_of_mem s0 (List.mem_cons_self p srest)
          · simp only [List.mem_singleton] at h1
            subst h1; exact List.mem_cons_self p _
        · exact List.mem_cons_of_mem s0 (List.mem_cons_of_mem s1 h)
    exact hperm.mem_iff.mp hmem

/-! ### Concrete evaluation of the hull on a unit square -/

lemma atan2_zero_zero : atan2 0 0 = 0 := by
  unfold atan2
  rw [if_neg (lt_irrefl (0 : ℝ)), if_neg (lt_irrefl (0 : ℝ)), if_neg (lt_irrefl (0 : ℝ)),
    if_neg (lt_irrefl (0 : ℝ))]

lemma atan2_one_zero : atan2 1 0 = Real.pi / 2 := by
  unfold atan2
  rw [if_neg (lt_irrefl (0 : ℝ)), if_neg (lt_irrefl (0 : ℝ)), if_pos (one_pos (α := ℝ))]

lemma atan2_one_one : atan2 1 1 = Real.pi / 4 := by
  unfold atan2
  rw [if_pos (one_pos (α := ℝ))]
  norm_num [Real.arctan_one]

lemma atan2_zero_one : atan2 0 1 = 0 := atan2_zero_of_pos one_pos

/-- The four corners of the unit square, in the order fed to the hull
routine. -/
def sqPts : List Pt := [(1, 0), (1, 1), (0, 0), (0, 1)]

lemma lowest_sq : lowestPointOf sqPts = ((0 : ℝ), (0 : ℝ)) := by
  unfold sqPts lowestPointOf
  simp only [List.foldl]
  rw [if_neg (by norm_num), if_pos (by norm_num)]

lemma sb_ab : sortBefore ((0 : ℝ), (0 : ℝ)) (1, 0) (1, 1) := by
  unfold sortBefore
  left
  norm_num [atan2_one_one, atan2_one_zero]
  linarith [Real.pi_pos]

lemma sb_bc : sortBefore ((0 : ℝ), (0 : ℝ)) (1, 1) (0, 0) := by
  unfold sortBefore
  left
  norm_num [atan2_one_one, atan2_zero_zero]
  linarith [Real.pi_pos]

lemma sb_cd : sortBefore ((0 : ℝ), (0 : ℝ)) (0, 0) (0, 1) := by
  unfold sortBefore
  right
  constructor
  · norm_num [atan2_zero_zero, atan2_zero_one]
  · norm_num

lemma sorted_sq : List.insertionSort (sortBefore ((0 : ℝ), (0 : ℝ))) sqPts =
    [(1, 0), (1, 1), (0, 0), (0, 1)] := by
  have e0 : List.orderedInsert (sortBefore ((0 : ℝ), (0 : ℝ))) (0, 1) [] = [((0 : ℝ), (1 : ℝ))] :=
    rfl
  have e1 : List.orderedInsert (sortBefore ((0 : ℝ), (0 : ℝ))) (0, 0) [(0, 1)] =
      [((0 : ℝ), (0 : ℝ)), (0, 1)] := by
    simp only [List.orderedInsert]
    rw [if_pos sb_cd]
  have e2 : List.orderedInsert (sortBefore ((0 : ℝ), (0 : ℝ))) (1, 1) [(0, 0), (0, 1)] =
      [((1 : ℝ), (1 : ℝ)), (0, 0), (0, 1)] := by
    simp only [List.orderedInsert]
    rw [if_pos sb_bc]
  have e3 : List.orderedInsert (sortBefore ((0 : ℝ), (0 : ℝ))) (1, 0) [(1, 1), (0, 0), (0, 1)] =
      [((1 : ℝ), (0 : ℝ)), (1, 1), (0, 0), (0, 1)] := by
    simp only [List.orderedInsert]
    rw [if_pos sb_ab]
  unfold sqPts
  simp only [List.insertionSort]
  rw [e0, e1, e2, e3]

lemma ccw_pop : ¬ isCounterClockwise ((1 : ℝ), (0 : ℝ)) (1, 1) (0, 0) := by
  unfold isCounterClockwise
  norm_num

lemma ccw_keep : isCounterClockwise ((1 : ℝ), (0 : ℝ)) (0, 0) (0, 1) := by
  unfold isCounterClockwise
  norm_num

/-- On the unit square the Graham scan drops the corner `(1,1)` and returns a
triangle. -/
lemma hull_sq : calculateConvexHull sqPts = [(1, 0), (0, 0), (0, 1)] := by
  unfold calculateConvexHull
  rw [if_neg (by norm_num [sqPts])]
  dsimp only
  rw [lowest_sq, sorted_sq]
  have g1 : grahamPop ((0 : ℝ), (0 : ℝ)) [(1, 1), (1, 0)] = [((1 : ℝ), (0 : ℝ))] := by
    simp only [grahamPop]
    rw [if_neg ccw_pop]
  have g2 : grahamPop ((0 : ℝ), (1 : ℝ)) [(0, 0), (1, 0)] = [((0 : ℝ), (0 : ℝ)), (1, 0)] := by
    simp only [grahamPop]
    rw [if_pos ccw_keep]
  simp only [List.foldl]
  rw [g1, g2]
  rfl

/-- C3, counterexample: on the four corners of the unit square (≥ 3 input
points) the Graham scan drops the corner `(1,1)`, and `(1,1)` does not lie
inside or on the convex polygon spanned by the returned hull points, so the
output is not a hull of the input. -/
theorem claim_C3_counterexample :
    3 ≤ sqPts.length ∧ ((1 : ℝ), (1 : ℝ)) ∈ sqPts ∧
      ((1 : ℝ), (1 : ℝ)) ∉ convexHull ℝ {p : Pt | p ∈ calculateConvexHull sqPts} := by
  refine ⟨by norm_num [sqPts], by norm_num [sqPts], ?_⟩
  intro hmem
  have hlin : IsLinearMap ℝ (fun p : Pt => p.1 + p.2) := by
    constructor
    · intro a b
      simp only [Prod.fst_add, Prod.snd_add]
      ring
    · intro c a
      simp only [Prod.smul_fst, Prod.smul_snd, smul_eq_mul]
      ring
  have hsub : convexHull ℝ {p : Pt | p ∈ calculateConvexHull sqPts} ⊆
      {p : Pt | p.1 + p.2 ≤ 1} := by
    apply convexHull_min
    · intro q hq
      simp only [Set.mem_setOf_eq, hull_sq, List.mem_cons, List.not_mem_nil, or_false] at hq
      rcases hq with rfl | rfl | rfl <;> norm_num
    · exact convex_halfSpace_le hlin 1
  have := hsub hmem
  simp only [Set.mem_setOf_eq] at this
  norm_num at this

/-- C3, amended: the output of `calculateConvexHull` consists of input
points (it is drawn from a permutation of the input), but the input points
need not lie inside or on the polygon it returns. -/
theorem claim_C3_amended (points : List Pt) (p : Pt)
    (hp : p ∈ calculateConvexHull points) : p ∈ points :=
  calculateConvexHull_subset hp

/-- Witness for C3 (amended) at the square: `(1,0)` is in the returned hull
and is indeed an input point. -/
theorem claim_C3_witness : ((1 : ℝ), (0 : ℝ)) ∈ sqPts :=
  claim_C3_amended sqPts ((1 : ℝ), (0 : ℝ)) (by rw [hull_sq]; norm_num)

/-- C10: for fewer than 3 input points `calculateConvexHull` returns the
input list unchanged. -/
theorem claim_C10 (points : List Pt) (h : points.length < 3) :
    calculateConvexHull points = points := by
  unfold calculateConvexHull
  rw [if_pos h]

/-- Witness for C10 at a one-point list. -/
theorem claim_C10_witness : calculateConvexHull [((5 : ℝ), (7 : ℝ))] = [((5 : ℝ), (7 : ℝ))] :=
  claim_C10 _ (by norm_num)

/-! ## Coverage grid (`calculateCoverageMetrics`, grid-marking pass)

The 15°×30° grid of `calculateCoverageMetrics` is modelled as a function
from (latIndex, lngIndex) to (count, covered), initially `(0, false)`
everywhere (`generateEarthGrid`), updated by one `coverageStep` per
position exactly as the `positions.forEach` loop does. -/

/-- One iteration of the `positions.forEach` marking loop in
`calculateCoverageMetrics`: compute floor-based cell indices, and if both
are within `[0, 12)` increment that cell's count and set it covered. -/
def coverageStep (grid : ℕ → ℕ → ℕ × Bool) (p : Pt) : ℕ → ℕ → ℕ × Bool :=
  let latIndex : ℤ := ⌊(90 + p.1) / 15⌋
  let lngIndex : ℤ := ⌊(180 + p.2) / 30⌋
  if 0 ≤ latIndex ∧ latIndex < 12 ∧ 0 ≤ lngIndex ∧ lngIndex < 12 then
    fun i j =>
      if i = latIndex.toNat ∧ j = lngIndex.toNat then ((grid i j).1 + 1, true)
      else grid i j
  else grid

/-- The marked grid after processing all positions. -/
def coverageGrid (positions : List Pt) : ℕ → ℕ → ℕ × Bool :=
  positions.foldl coverageStep (fun _ _ => (0, false))

/-- Position `p` lands in cell `(i, j)` of the coverage grid. -/
def cellHit (p : Pt) (i j : ℕ) : Prop :=
  0 ≤ ⌊(90 + p.1) / 15⌋ ∧ ⌊(90 + p.1) / 15⌋ < 12 ∧
    0 ≤ ⌊(180 + p.2) / 30⌋ ∧ ⌊(180 + p.2) / 30⌋ < 12 ∧
    (⌊(90 + p.1) / 15⌋).toNat = i ∧ (⌊(180 + p.2) / 30⌋).toNat = j

instance cellHit.dec (p : Pt) (i j : ℕ) : Decidable (cellHit p i j) := by
  unfold cellHit; infer_instance

lemma coverageStep_fst (g : ℕ → ℕ → ℕ × Bool) (p : Pt) (i j : ℕ) :
    ((coverageStep g p) i j).1 = (g i j).1 + (if cellHit p i j then 1 else 0) := by
  unfold coverageStep
  by_cases hb : 0 ≤ ⌊(90 + p.1) / 15⌋ ∧ ⌊(90 + p.1) / 15⌋ < 12 ∧
      0 ≤ ⌊(180 + p.2) / 30⌋ ∧ ⌊(180 + p.2) / 30⌋ < 12
  · simp only [if_pos hb]
    by_cases hm : i = (⌊(90 + p.1) / 15⌋).toNat ∧ j = (⌊(180 + p.2) / 30⌋).toNat
    · have hhit : cellHit p i j :=
        ⟨hb.1, hb.2.1, hb.2.2.1, hb.2.2.2, hm.1.symm, hm.2.symm⟩
      simp only [if_pos hm, if_pos hhit]
    · have hmiss : ¬ cellHit p i j := by
        intro hc
        exact hm ⟨hc.2.2.2.2.1.symm, hc.2.2.2.2.2.symm⟩
      simp only [if_neg hm, if_neg hmiss, add_zero]
  · have hmiss : ¬ cellHit p i j := by
      intro hc
      exact hb ⟨hc.1, hc.2.1, hc.2.2.1, hc.2.2.2.1⟩
    simp only [if_neg hb, if_neg hmiss, add_zero]

lemma coverageStep_snd (g : ℕ → ℕ → ℕ × Bool) (p : Pt) (i j : ℕ) :
    ((coverageStep g p) i j).2 = ((g i j).2 || decide (cellHit p i j)) := by
  unfold coverageStep
  by_cases hb : 0 ≤ ⌊(90 + p.1) / 15⌋ ∧ ⌊(90 + p.1) / 15⌋ < 12 ∧
      0 ≤ ⌊(180 + p.2) / 30⌋ ∧ ⌊(180 + p.2) / 30⌋ < 12
  · simp only [if_pos hb]
    by_cases hm : i = (⌊(90 + p.1) / 15⌋).toNat ∧ j = (⌊(180 + p.2) / 30⌋).toNat
    · have hhit : cellHit p i j :=
        ⟨hb.1, hb.2.1, hb.2.2.1, hb.2.2.2, hm.1.symm, hm.2.symm⟩
      simp only [if_pos hm, hhit]
      simp
    · have hmiss : ¬ cellHit p i j := by
        intro hc
        exact hm ⟨hc.2.2.2.2.1.symm, hc.2.2.2.2.2.symm⟩
      simp only [if_neg hm, hmiss]
      simp
  · have hmiss : ¬ cellHit p i j := by
      intro hc
      exact hb ⟨hc.1, hc.2.1, hc.2.2.1, hc.2.2.2.1⟩
    simp only [if_neg hb, hmiss]
    simp

lemma coverageGrid_go_count :
    ∀ (ps : List Pt) (g : ℕ → ℕ → ℕ × Bool) (i j : ℕ),
      ((ps.foldl coverageStep g) i j).1 =
        (g i j).1 + ps.countP (fun p => decide (cellHit p i j)) := by
  intro ps
  induction ps with
  | nil => intro g i j; simp
  | cons p rest ih =>
      intro g i j
      simp only [List.foldl_cons, List.countP_cons, ih, coverageStep_fst]
      by_cases h : cellHit p i j <;> simp [h] <;> omega

/-- The occupant count of cell `(i,j)` is the number of positions that land
in it. -/
lemma coverageGrid_count (ps : List Pt) (i j : ℕ) :
    (coverageGrid ps i j).1 = ps.countP (fun p => decide (cellHit p i j)) := by
  unfold coverageGrid
  rw [coverageGrid_go_count]
  simp

lemma coverageGrid_go_cov :
    ∀ (ps : List Pt) (g : ℕ → ℕ → ℕ × Bool),
      (∀ i j, ((g i j).2 = true ↔ 0 < (g i j).1)) →
      ∀ i j, (((ps.foldl coverageStep g) i j).2 = true ↔
        0 < ((ps.foldl coverageStep g) i j).1) := by
  intro ps
  induction ps with
  | nil => intro g hg i j; exact hg i j
  | cons p rest ih =>
      intro g hg i j
      simp only [List.foldl_cons]
      apply ih
      intro i' j'
      rw [coverageStep_fst, coverageStep_snd]
      by_cases h : cellHit p i' j' <;> simp [h, hg i' j']

/-- A grid cell is covered precisely when its occupant count is positive. -/
lemma coverageGrid_covered (ps : List Pt) (i j : ℕ) :
    ((coverageGrid ps i j).2 = true ↔ 0 < (coverageGrid ps i j).1) := by
  unfold coverageGrid
  exact coverageGrid_go_cov ps _ (by intro i j; simp) i j

/-- C4, counterexample: the boundary position at latitude 90 is dropped by
the marking loop: after processing `[(90, 0)]` every cell still has count 0
and no cell is covered, so the position was not assigned to any cell. -/
theorem claim_C4_counterexample :
    coverageGrid [((90 : ℝ), (0 : ℝ))] = fun _ _ => (0, false) := by
  unfold coverageGrid
  simp only [List.foldl]
  unfold coverageStep
  dsimp only
  rw [if_neg]
  intro h
  rcases h with ⟨-, h2, -⟩
  have e : ((90 : ℝ) + 90) / 15 = ((12 : ℤ) : ℝ) := by norm_num
  rw [e, Int.floor_intCast] at h2
  omega

/-- C4, amended: every position with `-90 ≤ lat < 90` and
`-180 ≤ lng < 180` lands in exactly one in-range cell, whose bounds contain
it; processing the position increments exactly that cell's count and leaves
all others unchanged; and any cell is covered iff its count is positive.
Positions exactly on the boundary `lat = 90` or `lng = 180` are dropped
(see the counterexample), so the closed upper bounds in the claim are
corrected to half-open ones. -/
theorem claim_C4_amended (lat lng : ℝ) (h1 : -90 ≤ lat) (h2 : lat < 90)
    (h3 : -180 ≤ lng) (h4 : lng < 180) :
    ∃ i j : ℕ, i < 12 ∧ j < 12 ∧
      (-90 + 15 * (i : ℝ) ≤ lat ∧ lat < -90 + 15 * ((i : ℝ) + 1)) ∧
      (-180 + 30 * (j : ℝ) ≤ lng ∧ lng < -180 + 30 * ((j : ℝ) + 1)) ∧
      (∀ positions : List Pt,
        (coverageGrid ((lat, lng) :: positions) i j).1 =
          (coverageGrid positions i j).1 + 1 ∧
        (∀ i' j' : ℕ, ¬(i' = i ∧ j' = j) →
          (coverageGrid ((lat, lng) :: positions) i' j').1 =
            (coverageGrid positions i' j').1)) ∧
      (∀ i' j' : ℕ,
        (-90 + 15 * (i' : ℝ) ≤ lat ∧ lat < -90 + 15 * ((i' : ℝ) + 1)) →
        (-180 + 30 * (j' : ℝ) ≤ lng ∧ lng < -180 + 30 * ((j' : ℝ) + 1)) →
        i' = i ∧ j' = j) ∧
      (∀ (positions : List Pt) (i' j' : ℕ),
        ((coverageGrid positions i' j').2 = true ↔ 0 < (coverageGrid positions i' j').1)) := by
  have hla : (0 : ℝ) ≤ (90 + lat) / 15 := by linarith
  have hlb : (90 + lat) / 15 < 12 := by linarith
  have hga : (0 : ℝ) ≤ (180 + lng) / 30 := by linarith
  have hgb : (180 + lng) / 30 < 12 := by linarith
  have hfl0 : 0 ≤ ⌊(90 + lat) / 15⌋ := Int.floor_nonneg.mpr hla
  have hfl1 : ⌊(90 + lat) / 15⌋ < 12 := by
    rw [Int.floor_lt]
    exact_mod_cast hlb
  have hfg0 : 0 ≤ ⌊(180 + lng) / 30⌋ := Int.floor_nonneg.mpr hga
  have hfg1 : ⌊(180 + lng) / 30⌋ < 12 := by
    rw [Int.floor_lt]
    exact_mod_cast hgb
  refine ⟨(⌊(90 + lat) / 15⌋).toNat, (⌊(180 + lng) / 30⌋).toNat, ?_, ?_, ?_, ?_, ?_, ?_, ?_⟩
  · omega
  · omega
  · have e : ((⌊(90 + lat) / 15⌋.toNat : ℕ) : ℝ) = ((⌊(90 + lat) / 15⌋ : ℤ) : ℝ) := by
      exact_mod_cast Int.toNat_of_nonneg hfl0
    constructor
    · rw [e]
      have := Int.floor_le ((90 + lat) / 15)
      linarith
    · rw [e]
      have := Int.lt_floor_add_one ((90 + lat) / 15)
      linarith
  · have e : ((⌊(180 + lng) / 30⌋.toNat : ℕ) : ℝ) = ((⌊(180 + lng) / 30⌋ : ℤ) : ℝ) := by
      exact_mod_cast Int.toNat_of_nonneg hfg0
    constructor
    · rw [e]
      have := Int.floor_le ((180 + lng) / 30)
      linarith
    · rw [e]
      have := Int.lt_floor_add_one ((180 + lng) / 30)
      linarith
  · intro positions
    have hhit : cellHit (lat, lng) (⌊(90 + lat) / 15⌋).toNat (⌊(180 + lng) / 30⌋).toNat := by
      exact ⟨hfl0, hfl1, hfg0, hfg1, rfl, rfl⟩
    constructor
    · rw [coverageGrid_count, coverageGrid_count, List.countP_cons]
      simp [hhit]
    · intro i' j' hne
      rw [coverageGrid_count, coverageGrid_count, List.countP_cons]
      have : ¬ cellHit (lat, lng) i' j' := by
        intro hc
        exact hne ⟨hc.2.2.2.2.1.symm, hc.2.2.2.2.2.symm⟩
      simp [this]
  · intro i' j' hi hj
    have hii : (i' : ℤ) = ⌊(90 + lat) / 15⌋ := by
      have hk1 : ((i' : ℤ) : ℝ) ≤ (90 + lat) / 15 := by push_cast; linarith
      have hk2 : (90 + lat) / 15 < (i' : ℤ) + 1 := by push_cast; linarith
      exact (Int.floor_eq_iff.mpr ⟨hk1, hk2⟩).symm
    have hjj : (j' : ℤ) = ⌊(180 + lng) / 30⌋ := by
      have hk1 : ((j' : ℤ) : ℝ) ≤ (180 + lng) / 30 := by push_cast; linarith
      have hk2 : (180 + lng) / 30 < (j' : ℤ) + 1 := by push_cast; linarith
      exact (Int.floor_eq_iff.mpr ⟨hk1, hk2⟩).symm
    omega
  · intro positions i' j'
    exact coverageGrid_covered positions i' j'

/-- Witness for C4 (amended) at position `(0, 0)`. -/
theorem claim_C4_witness :
    ∃ i j : ℕ, i < 12 ∧ j < 12 ∧
      (-90 + 15 * (i : ℝ) ≤ 0 ∧ (0 : ℝ) < -90 + 15 * ((i : ℝ) + 1)) ∧
      (-180 + 30 * (j : ℝ) ≤ 0 ∧ (0 : ℝ) < -180 + 30 * ((j : ℝ) + 1)) ∧
      (∀ positions : List Pt,
        (coverageGrid (((0 : ℝ), (0 : ℝ)) :: positions) i j).1 =
          (coverageGrid positions i j).1 + 1 ∧
        (∀ i' j' : ℕ, ¬(i' = i ∧ j' = j) →
          (coverageGrid (((0 : ℝ), (0 : ℝ)) :: positions) i' j').1 =
            (coverageGrid positions i' j').1)) ∧
      (∀ i' j' : ℕ,
        (-90 + 15 * (i' : ℝ) ≤ 0 ∧ (0 : ℝ) < -90 + 15 * ((i' : ℝ) + 1)) →
        (-180 + 30 * (j' : ℝ) ≤ 0 ∧ (0 : ℝ) < -180 + 30 * ((j' : ℝ) + 1)) →
        i' = i ∧ j' = j) ∧
      (∀ (positions : List Pt) (i' j' : ℕ),
        ((coverageGrid positions i' j').2 = true ↔ 0 < (coverageGrid positions i' j').1)) :=
  claim_C4_amended 0 0 (by norm_num) (by norm_num) (by norm_num) (by norm_num)

/-! ## Centroid clustering (`kMeansCluster`, `initializeCentroids`,
`calculateSilhouetteScore`, `performKMeansClustering`) -/

/-- The inner `for j` loop of the assignment step of `kMeansCluster`:
running (index, best-distance) pair, `none` standing for the initial
`Infinity`, updated on strict improvement. -/
def ccAux (p : Pt) : List Pt → ℕ → ℕ × Option ℝ → ℕ × Option ℝ
  | [], _, acc => acc
  | c :: rest, j, acc =>
      let d := hD p c
      let acc' := match acc.2 with
        | none => (j, some d)
        | some m => if d < m then (j, some d) else acc
      ccAux p rest (j + 1) acc'

/-- Index of the closest centroid (`closestCentroid` starts at 0,
`minDistance` at `Infinity`). -/
def closestCentroid (p : Pt) (cents : List Pt) : ℕ :=
  (ccAux p cents 0 (0, none)).1

/-- The assignment pass: each point goes to its closest centroid. -/
def assignStep (points : List Pt) (cents : List Pt) : List ℤ :=
  points.map (fun p => (closestCentroid p cents : ℤ))

/-- The centroid-update pass: per-cluster coordinate sums and counts
accumulated over the points, then the mean for clusters with at least one
point, keeping the previous centroid for empty clusters. -/
def updateStep (points : List Pt) (A : List ℤ) (cents : List Pt) (k : ℕ) : List Pt :=
  let sums : ℕ → ℝ × ℝ × ℕ := (points.zip A).foldl
    (fun f pa => fun c =>
      if (c : ℤ) = pa.2 then ((f c).1 + pa.1.1, (f c).2.1 + pa.1.2, (f c).2.2 + 1)
      else f c)
    (fun _ => (0, 0, 0))
  (List.range k).map (fun c =>
    if 0 < (sums c).2.2 then
      (((sums c).1 / ((sums c).2.2 : ℝ)), ((sums c).2.1 / ((sums c).2.2 : ℝ)))
    else cents.getD c (0, 0))

/-- The `while (!converged && iterations < maxIterations)` loop of
`kMeansCluster`, fuel = remaining iterations (the source fixes
`maxIterations = 100`). When the freshly computed assignments equal the
previous ones the loop stops before updating centroids. -/
def kMeansLoop (points : List Pt) (k : ℕ) : ℕ → List ℤ → List Pt → List ℤ × List Pt
  | 0, oldA, cents => (oldA, cents)
  | fuel + 1, oldA, cents =>
      let A := assignStep points cents
      if A = oldA then (A, cents)
      else kMeansLoop points k fuel A (updateStep points A cents k)

/-- Minimum distance from `p` to the already chosen centroids
(`minDistance` starts at `Infinity`, modelled as `none`). -/
def minDistToCents (p : Pt) (cents : List Pt) : Option ℝ :=
  cents.foldl (fun acc c =>
    match acc with
    | none => some (hD p c)
    | some m => some (min m (hD p c))) none

/-- The cumulative-probability scan of `initializeCentroids`: first index
whose running sum reaches the random value, `0` if none does. -/
def cumFind : List ℝ → ℝ → ℝ → ℕ → ℕ
  | [], _, _, _ => 0
  | q :: rest, rv, cum, j => if cum + q ≥ rv then j else cumFind rest rv (cum + q) (j + 1)

/-- `initializeCentroids(points, k)` from the source, with the global
`Math.random()` stream passed explicitly: draw `rand 0` for the first
centroid, then `rand i` for the `i`-th k-means++ draw. -/
def initializeCentroids (points : List Pt) (k : ℕ) (rand : ℕ → ℝ) : List Pt :=
  if points = [] ∨ k = 0 then []
  else
    let firstCentroid := (⌊rand 0 * (points.length : ℝ)⌋).toNat
    (List.range' 1 (k - 1)).foldl (fun cents i =>
      let distances := points.map (fun p =>
        match minDistToCents p cents with
        | none => (0 : ℝ)
        | some m => m * m)
      let s := distances.sum
      let probabilities := distances.map (fun d => d / s)
      cents ++ [points.getD (cumFind probabilities (rand i) 0 0) (0, 0)])
      [points.getD firstCentroid (0, 0)]

/-- Final inertia of `kMeansCluster`: sum of squared distances from each
point to its assigned centroid. -/
def inertiaOf (points : List Pt) (A : List ℤ) (cents : List Pt) : ℝ :=
  ((points.zip A).map (fun pa =>
    let d := hD pa.1 (cents.getD pa.2.toNat (0, 0))
    d * d)).sum

/-- `kMeansCluster(positions, k)` from the source, returning
(assignments, centroids, inertia). -/
def kMeansCluster (points : List Pt) (k : ℕ) (rand : ℕ → ℝ) : List ℤ × List Pt × ℝ :=
  if points = [] ∨ k = 0 then ([], [], 0)
  else
    let cents0 := initializeCentroids points k rand
    let r := kMeansLoop points k 100 (List.replicate points.length (-1)) cents0
    (r.1, r.2, inertiaOf points r.1 r.2)

/-- One refinement iteration of the `kMeansCluster` loop: assign every
point to its nearest centroid, then recompute the centroids. -/
def refineStep (points : List Pt) (k : ℕ) (cents : List Pt) : List ℤ × List Pt :=
  let A := assignStep points cents
  (A, updateStep points A cents k)

/-- The successive iteration states of `kMeansCluster`'s refinement loop:
state `t ≥ 1` holds the assignments computed in iteration `t` and the
centroids updated from them. -/
def iterState (points : List Pt) (k : ℕ) (rand : ℕ → ℝ) : ℕ → List ℤ × List Pt
  | 0 => (List.replicate points.length (-1), initializeCentroids points k rand)
  | t + 1 => refineStep points k (iterState points k rand t).2

/-- `calculateAverageDistanceToSameCluster(pointIndex, positions,
assignments)` from the source. -/
def calculateAverageDistanceToSameCluster (i : ℕ) (positions : List Pt) (A : List ℤ) : ℝ :=
  let pts := (positions.enum.filter (fun ji =>
    decide (ji.1 ≠ i ∧ A.getD ji.1 0 = A.getD i 0))).map (fun ji => ji.2)
  if pts = [] then 0
  else ((pts.map (fun q => hD (positions.getD i (0, 0)) q)).sum) / (pts.length : ℝ)

/-- The positions assigned to cluster `cid`. -/
def clusterPts (cid : ℕ) (positions : List Pt) (A : List ℤ) : List Pt :=
  (positions.enum.filter (fun ji => decide (A.getD ji.1 0 = (cid : ℤ)))).map (fun ji => ji.2)

/-- `calculateAverageDistanceToNearestCluster(pointIndex, positions,
assignments, centroids)` from the source; the running minimum starts at
`Infinity` (`none`) and an empty minimum is reported as `0`. -/
def calculateAverageDistanceToNearestCluster (i : ℕ) (positions : List Pt) (A : List ℤ)
    (cents : List Pt) : ℝ :=
  let best := (List.range cents.length).foldl (fun acc (cid : ℕ) =>
    if (cid : ℤ) = A.getD i 0 then acc
    else
      let pts := clusterPts cid positions A
      if pts = [] then acc
      else
        let avg := ((pts.map (fun q => hD (positions.getD i (0, 0)) q)).sum) / (pts.length : ℝ)
        match acc with
        | none => some avg
        | some m => some (min m avg)) none
  match best with
  | none => 0
  | some m => m

/-- `calculateSilhouetteScore(positions, assignments, centroids)` from the
source. -/
def calculateSilhouetteScore (positions : List Pt) (A : List ℤ) (cents : List Pt) : ℝ :=
  if positions.length ≤ 1 ∨ cents.length ≤ 1 then 0
  else
    let vals := (List.range positions.length).map (fun i =>
      let a := calculateAverageDistanceToSameCluster i positions A
      let b := calculateAverageDistanceToNearestCluster i positions A cents
      if a = 0 ∧ b = 0 then 0 else (b - a) / max a b)
    vals.sum / (vals.length : ℝ)

/-- The fields of `performKMeansClustering`'s result that the spec's claims
mention. -/
structure KMeansOutcome where
  k : ℕ
  assignments : List ℤ
  centroids : List Pt
  clusterSizes : List ℕ

/-- `performKMeansClustering(positions)` from the source: sweep the
candidate range, keeping the k with the strictly best silhouette score
(`bestScore` starts at `-Infinity`, modelled as `none`); each candidate run
draws from the random stream `rand i`. -/
def performKMeansClustering (positions : List Pt) (rand : ℕ → ℕ → ℝ) : KMeansOutcome :=
  if positions = [] then ⟨0, [], [], []⟩
  else
    let maxK := min 20 (positions.length / 10)
    let kRange := (List.range (maxK - 1)).map (fun i => i + 2)
    let init : KMeansOutcome × Option ℝ := (⟨2, [], [], []⟩, none)
    (kRange.enum.foldl (fun acc ik =>
      let r := kMeansCluster positions ik.2 (rand ik.1)
      let s := calculateSilhouetteScore positions r.1 r.2.1
      let upd : KMeansOutcome × Option ℝ :=
        (⟨ik.2, r.1, r.2.1,
          (List.range ik.2).map (fun c => r.1.countP (fun a => decide (a = (c : ℤ))))⟩, some s)
      match acc.2 with
      | none => upd
      | some b => if s > b then upd else acc) init).1

/-! ### The assignment step picks a valid index and minimises distance -/

lemma ccAux_spec (p : Pt) :
    ∀ (l : List Pt) (j jb : ℕ) (m : ℝ),
      ∃ m', (ccAux p l j (jb, some m)).2 = some m' ∧ m' ≤ m ∧
        (∀ c ∈ l, m' ≤ hD p c) ∧
        ((ccAux p l j (jb, some m)).1 = jb ∧ m' = m ∨
          ∃ idx, idx < l.length ∧ (ccAux p l j (jb, some m)).1 = j + idx ∧
            m' = hD p (l.getD idx (0, 0))) := by
  intro l
  induction l with
  | nil =>
      intro j jb m
      exact ⟨m, rfl, le_refl m, by intro c hc; exact absurd hc (List.not_mem_nil c),
        Or.inl ⟨rfl, rfl⟩⟩
  | cons c rest ih =>
      intro j jb m
      by_cases hd : hD p c < m
      · have hstep : ccAux p (c :: rest) j (jb, some m) =
            ccAux p rest (j + 1)
              (if hD p c < m then (j, some (hD p c)) else (jb, some m)) := rfl
        rw [hstep, if_pos hd]
        obtain ⟨m', he, hle, hall, hdisj⟩ := ih (j + 1) j (hD p c)
        refine ⟨m', he, le_trans hle (le_of_lt hd), ?_, ?_⟩
        · intro c' hc'
          rcases List.mem_cons.mp hc' with h | h
          · rw [h]; exact hle
          · exact hall c' h
        · rcases hdisj with ⟨h1, h2⟩ | ⟨idx, hidx, h1, h2⟩
          · refine Or.inr ⟨0, Nat.succ_pos _, by rw [h1]; omega, ?_⟩
            rw [List.getD_cons_zero]; exact h2
          · refine Or.inr ⟨idx + 1, by simp; omega, by rw [h1]; omega, ?_⟩
            rw [List.getD_cons_succ]; exact h2
      · have hstep : ccAux p (c :: rest) j (jb, some m) =
            ccAux p rest (j + 1)
              (if hD p c < m then (j, some (hD p c)) else (jb, some m)) := rfl
        rw [hstep, if_neg hd]
        obtain ⟨m', he, hle, hall, hdisj⟩ := ih (j + 1) jb m
        refine ⟨m', he, hle, ?_, ?_⟩
        · intro c' hc'
          rcases List.mem_cons.mp hc' with h | h
          · rw [h]; exact le_trans hle (not_lt.mp hd)
          · exact hall c' h
        · rcases hdisj with ⟨h1, h2⟩ | ⟨idx, hidx, h1, h2⟩
          · exact Or.inl ⟨h1, h2⟩
          · refine Or.inr ⟨idx + 1, by simp; omega, by rw [h1]; omega, ?_⟩
            rw [List.getD_cons_succ]; exact h2

lemma closestCentroid_lt (p : Pt) {cents : List Pt} (h : cents ≠ []) :
    closestCentroid p cents < cents.length := by
  rcases cents with _ | ⟨c0, rest⟩
  · exact absurd rfl h
  · unfold closestCentroid
    have hstep : ccAux p (c0 :: rest) 0 (0, none) =
        ccAux p rest 1 (0, some (hD p c0)) := rfl
    rw [hstep]
    obtain ⟨m', _, _, _, hdisj⟩ := ccAux_spec p rest 1 0 (hD p c0)
    rcases hdisj with ⟨h1, _⟩ | ⟨idx, hidx, h1, _⟩
    · rw [h1]; simp
    · rw [h1]; simp; omega

lemma closestCentroid_min (p : Pt) {cents : List Pt} (h : cents ≠ []) :
    ∀ jdx, jdx < cents.length →
      hD p (cents.getD (closestCentroid p cents) (0, 0)) ≤ hD p (cents.getD jdx (0, 0)) := by
  rcases cents with _ | ⟨c0, rest⟩
  · exact absurd rfl h
  · unfold closestCentroid
    have hstep : ccAux p (c0 :: rest) 0 (0, none) =
        ccAux p rest 1 (0, some (hD p c0)) := rfl
    rw [hstep]
    obtain ⟨m', he, hle, hall, hdisj⟩ := ccAux_spec p rest 1 0 (hD p c0)
    have hval : hD p ((c0 :: rest).getD (ccAux p rest 1 (0, some (hD p c0))).1 (0, 0)) = m' := by
      rcases hdisj with ⟨h1, h2⟩ | ⟨idx, hidx, h1, h2⟩
      · rw [h1, List.getD_cons_zero, h2]
      · rw [h1, show 1 + idx = idx + 1 by omega, List.getD_cons_succ, h2]
    intro jdx hjdx
    rw [hval]
    rcases jdx with _ | j'
    · rw [List.getD_cons_zero]; exact hle
    · rw [List.getD_cons_succ]
      have hj' : j' < rest.length := by simp at hjdx; omega
      rw [List.getD_eq_getElem rest (0, 0) hj']
      exact hall _ (List.getElem_mem hj')

lemma assignStep_length (points cents : List Pt) :
    (assignStep points cents).length = points.length := by
  unfold assignStep
  exact List.length_map _ _

lemma assignStep_valid {cents : List Pt} (h : cents ≠ []) (points : List Pt) :
    ∀ a ∈ assignStep points cents, 0 ≤ a ∧ a < (cents.length : ℤ) := by
  intro a ha
  unfold assignStep at ha
  obtain ⟨p, _, hpa⟩ := List.mem_map.mp ha
  subst hpa
  constructor
  · exact Int.natCast_nonneg _
  · exact_mod_cast closestCentroid_lt p h

lemma updateStep_length (points : List Pt) (A : List ℤ) (cents : List Pt) (k : ℕ) :
    (updateStep points A cents k).length = k := by
  unfold updateStep
  simp

lemma kMeansLoop_valid (points : List Pt) (k : ℕ) (hk : 1 ≤ k) :
    ∀ (fuel : ℕ) (oldA : List ℤ) (cents : List Pt), cents.length = k →
      oldA.length = points.length → (∀ a ∈ oldA, 0 ≤ a ∧ a < (k : ℤ)) →
      ((kMeansLoop points k fuel oldA cents).1.length = points.length ∧
        ∀ a ∈ (kMeansLoop points k fuel oldA cents).1, 0 ≤ a ∧ a < (k : ℤ)) := by
  intro fuel
  induction fuel with
  | zero =>
      intro oldA cents _ h2 h3
      exact ⟨h2, h3⟩
  | succ n ih =>
      intro oldA cents h1 h2 h3
      have hne : cents ≠ [] := by
        intro he
        rw [he] at h1
        simp at h1
        omega
      have hAvalid : ∀ a ∈ assignStep points cents, 0 ≤ a ∧ a < (k : ℤ) := by
        intro a ha
        have := assignStep_valid hne points a ha
        rw [h1] at this
        exact this
      unfold kMeansLoop
      dsimp only
      split_ifs with hc
      · exact ⟨assignStep_length points cents, hAvalid⟩
      · exact ih (assignStep points cents) (updateStep points (assignStep points cents) cents k)
          (updateStep_length _ _ _ _) (assignStep_length _ _) hAvalid

lemma foldl_len_one {β : Type} (f : List Pt → β → List Pt)
    (hf : ∀ cents i, (f cents i).length = cents.length + 1) :
    ∀ (l : List β) (init : List Pt), (l.foldl f init).length = init.length + l.length := by
  intro l
  induction l with
  | nil => intro init; simp
  | cons b rest ih =>
      intro init
      simp only [List.foldl_cons, List.length_cons]
      rw [ih (f init b), hf init b]
      omega

lemma initializeCentroids_length (points : List Pt) (k : ℕ) (rand : ℕ → ℝ)
    (h1 : points ≠ []) (h2 : 1 ≤ k) :
    (initializeCentroids points k rand).length = k := by
  unfold initializeCentroids
  rw [if_neg (by push_neg; exact ⟨h1, by omega⟩)]
  dsimp only
  rw [foldl_len_one _ (by intro cents i; simp)]
  simp [List.length_range']
  omega

lemma kMeansLoop_valid_succ (points : List Pt) (k : ℕ) (hk : 1 ≤ k) (fuel : ℕ)
    (oldA : List ℤ) (cents : List Pt) (h1 : cents.length = k) :
    ((kMeansLoop points k (fuel + 1) oldA cents).1.length = points.length ∧
      ∀ a ∈ (kMeansLoop points k (fuel + 1) oldA cents).1, 0 ≤ a ∧ a < (k : ℤ)) := by
  have hne : cents ≠ [] := by
    intro he
    rw [he] at h1
    simp at h1
    omega
  have hAvalid : ∀ a ∈ assignStep points cents, 0 ≤ a ∧ a < (k : ℤ) := by
    intro a ha
    have := assignStep_valid hne points a ha
    rw [h1] at this
    exact this
  have hstep : kMeansLoop points k (fuel + 1) oldA cents =
      if assignStep points cents = oldA then (assignStep points cents, cents)
      else kMeansLoop points k fuel (assignStep points cents)
        (updateStep points (assignStep points cents) cents k) := rfl
  rw [hstep]
  split_ifs with hcv
  · exact ⟨assignStep_length _ _, hAvalid⟩
  · exact kMeansLoop_valid points k hk fuel _ _ (updateStep_length _ _ _ _)
      (assignStep_length _ _) hAvalid

/-- C7: for a non-empty position list and `k ≥ 1` the assignments returned
by `kMeansCluster` give every point index exactly one cluster id (one entry
per point), each in `[0, k)`. -/
theorem claim_C7 (points : List Pt) (k : ℕ) (rand : ℕ → ℝ)
    (h1 : points ≠ []) (h2 : 1 ≤ k) :
    (kMeansCluster points k rand).1.length = points.length ∧
      ∀ a ∈ (kMeansCluster points k rand).1, 0 ≤ a ∧ a < (k : ℤ) := by
  unfold kMeansCluster
  rw [if_neg (by push_neg; exact ⟨h1, by omega⟩)]
  dsimp only
  exact kMeansLoop_valid_succ points k h2 99 _ _
    (initializeCentroids_length points k rand h1 h2)

/-- Witness for C7 at a one-point list with `k = 1`. -/
theorem claim_C7_witness :
    (kMeansCluster [((0 : ℝ), (0 : ℝ))] 1 (fun _ => 0)).1.length = 1 ∧
      ∀ a ∈ (kMeansCluster [((0 : ℝ), (0 : ℝ))] 1 (fun _ => 0)).1, 0 ≤ a ∧ a < (1 : ℤ) :=
  claim_C7 [((0 : ℝ), (0 : ℝ))] 1 (fun _ => 0) (by simp) (le_refl 1)

lemma assignStep_cons (p : Pt) (rest cents : List Pt) :
    assignStep (p :: rest) cents = ((closestCentroid p cents : ℕ) : ℤ) :: assignStep rest cents :=
  rfl

lemma inertiaOf_cons (p : Pt) (rest : List Pt) (a : ℤ) (As : List ℤ) (cents : List Pt) :
    inertiaOf (p :: rest) (a :: As) cents =
      hD p (cents.getD a.toNat (0, 0)) * hD p (cents.getD a.toNat (0, 0)) +
        inertiaOf rest As cents := by
  unfold inertiaOf
  simp

/-- C2, amended: the assignment pass itself never increases inertia — for
any valid assignment `A`, reassigning every point to its nearest centroid
gives inertia at most that of `A` against the same centroids. (The full
iteration can increase inertia, because the centroid update takes
arithmetic lat/lng means while inertia is measured geodesically; see the
counterexample.) -/
theorem claim_C2_amended (points : List Pt) (cents : List Pt) (A : List ℤ)
    (hlen : A.length = points.length)
    (hA : ∀ a ∈ A, 0 ≤ a ∧ a.toNat < cents.length)
    (hc : cents ≠ []) :
    inertiaOf points (assignStep points cents) cents ≤ inertiaOf points A cents := by
  induction points generalizing A with
  | nil =>
      have : A = [] := List.length_eq_zero.mp (by simpa using hlen)
      subst this
      exact le_refl _
  | cons p rest ih =>
      cases A with
      | nil => simp at hlen
      | cons a As =>
          rw [assignStep_cons, inertiaOf_cons, inertiaOf_cons]
          have hmono : hD p (cents.getD (((closestCentroid p cents : ℕ) : ℤ)).toNat (0, 0)) ≤
              hD p (cents.getD a.toNat (0, 0)) := by
            rw [Int.toNat_natCast]
            exact closestCentroid_min p hc a.toNat (hA a (List.mem_cons_self a As)).2
          have hsq : hD p (cents.getD (((closestCentroid p cents : ℕ) : ℤ)).toNat (0, 0)) *
                hD p (cents.getD (((closestCentroid p cents : ℕ) : ℤ)).toNat (0, 0)) ≤
              hD p (cents.getD a.toNat (0, 0)) * hD p (cents.getD a.toNat (0, 0)) :=
            mul_self_le_mul_self (hD_nonneg _ _) hmono
          have hrest := ih As (by simpa using hlen)
            (fun a' ha' => hA a' (List.mem_cons_of_mem a ha'))
          linarith

/-- Witness for C2 (amended) on a one-point, one-centroid instance. -/
theorem claim_C2_amended_witness :
    inertiaOf [((0 : ℝ), (0 : ℝ))] (assignStep [((0 : ℝ), (0 : ℝ))] [((0 : ℝ), (3 : ℝ))])
        [((0 : ℝ), (3 : ℝ))] ≤
      inertiaOf [((0 : ℝ), (0 : ℝ))] [(0 : ℤ)] [((0 : ℝ), (3 : ℝ))] :=
  claim_C2_amended [((0 : ℝ), (0 : ℝ))] [((0 : ℝ), (3 : ℝ))] [(0 : ℤ)] (by simp)
    (by intro a ha; simp at ha; subst ha; simp) (by simp)

/-! ## C8: metric axioms of the haversine distance -/

/-- C8: for valid positions, `haversineDistance` vanishes on equal
arguments and is symmetric. In the real-number model both identities are
exact (the spec allows floating-point tolerance). -/
theorem claim_C8 (lat1 lon1 lat2 lon2 : ℝ)
    (h1 : -90 ≤ lat1) (h2 : lat1 ≤ 90) (h3 : -180 ≤ lon1) (h4 : lon1 ≤ 180)
    (h5 : -90 ≤ lat2) (h6 : lat2 ≤ 90) (h7 : -180 ≤ lon2) (h8 : lon2 ≤ 180) :
    haversineDistance lat1 lon1 lat1 lon1 = 0 ∧
      haversineDistance lat1 lon1 lat2 lon2 = haversineDistance lat2 lon2 lat1 lon1 :=
  ⟨haversine_self lat1 lon1, haversine_symm lat1 lon1 lat2 lon2⟩

/-- Witness for C8 at concrete coordinates. -/
theorem claim_C8_witness :
    haversineDistance 10 20 10 20 = 0 ∧
      haversineDistance 10 20 (-30) 40 = haversineDistance (-30) 40 10 20 :=
  claim_C8 10 20 (-30) 40 (by norm_num) (by norm_num) (by norm_num) (by norm_num)
    (by norm_num) (by norm_num) (by norm_num) (by norm_num)

/-! ## C9: randomness in centroid seeding

`Math.random()` appears in the source only inside `initializeCentroids`
(the first draw and one draw per later centroid); the embedding makes that
global stream an explicit parameter. The code itself offers no such
parameter — `initializeCentroids(points, k)` reads the global generator —
so runs are not reproducible as the claim demands. The theorem below
records what the claim wants from seeding: the result depends only on the
first `k` values of the random stream, so fixing the stream fixes the
output. -/

lemma initCentroids_foldl_congr (points : List Pt) (r1 r2 : ℕ → ℝ) :
    ∀ (l : List ℕ) (init : List Pt), (∀ i ∈ l, r1 i = r2 i) →
      l.foldl (fun cents i =>
        let distances := points.map (fun p =>
          match minDistToCents p cents with
          | none => (0 : ℝ)
          | some m => m * m)
        let s := distances.sum
        let probabilities := distances.map (fun d => d / s)
        cents ++ [points.getD (cumFind probabilities (r1 i) 0 0) (0, 0)]) init =
      l.foldl (fun cents i =>
        let distances := points.map (fun p =>
          match minDistToCents p cents with
          | none => (0 : ℝ)
          | some m => m * m)
        let s := distances.sum
        let probabilities := distances.map (fun d => d / s)
        cents ++ [points.getD (cumFind probabilities (r2 i) 0 0) (0, 0)]) init := by
  intro l
  induction l with
  | nil => intro init _; rfl
  | cons i rest ih =>
      intro init hagree
      simp only [List.foldl_cons]
      rw [hagree i (List.mem_cons_self i rest)]
      exact ih _ (fun i' hi' => hagree i' (List.mem_cons_of_mem i hi'))

/-- C9 (supporting theorem): the seeding consumes only the first `k` draws
of the random stream, so two runs whose streams agree on those draws
produce identical centroids — reproducibility holds exactly when the
stream can be fixed, which requires it to be injectable. -/
theorem claim_C9 (points : List Pt) (k : ℕ) (r1 r2 : ℕ → ℝ)
    (h : ∀ i, i < k → r1 i = r2 i) :
    initializeCentroids points k r1 = initializeCentroids points k r2 := by
  unfold initializeCentroids
  split_ifs with hc
  · rfl
  · push_neg at hc
    have hk : 0 < k := Nat.pos_of_ne_zero hc.2
    rw [h 0 hk]
    exact initCentroids_foldl_congr points r1 r2 _ _ (by
      intro i hi
      have := List.mem_range'_1.mp hi
      exact h i (by omega))

/-- Witness for C9 at a concrete list, `k = 2`, equal streams. -/
theorem claim_C9_witness :
    initializeCentroids [((0 : ℝ), (0 : ℝ)), ((0 : ℝ), (50 : ℝ))] 2 (fun _ => 0) =
      initializeCentroids [((0 : ℝ), (0 : ℝ)), ((0 : ℝ), (50 : ℝ))] 2 (fun i => if i < 2 then 0 else 1) :=
  claim_C9 _ 2 _ _ (by
    intro i hi
    simp [hi])

/-! ## C6: silhouette score bounds -/

lemma avgSame_nonneg (i : ℕ) (positions : List Pt) (A : List ℤ) :
    0 ≤ calculateAverageDistanceToSameCluster i positions A := by
  unfold calculateAverageDistanceToSameCluster
  dsimp only
  split_ifs with h
  · exact le_refl 0
  · apply div_nonneg
    · apply List.sum_nonneg
      intro x hx
      obtain ⟨q, _, rfl⟩ := List.mem_map.mp hx
      exact hD_nonneg _ _
    · positivity

lemma avgNearest_fold_nonneg (i : ℕ) (positions : List Pt) (A : List ℤ) :
    ∀ (l : List ℕ) (acc : Option ℝ), (∀ m, acc = some m → 0 ≤ m) →
      ∀ m, l.foldl (fun acc (cid : ℕ) =>
        if (cid : ℤ) = A.getD i 0 then acc
        else
          let pts := clusterPts cid positions A
          if pts = [] then acc
          else
            let avg := ((pts.map (fun q => hD (positions.getD i (0, 0)) q)).sum) /
              ((pts.length : ℕ) : ℝ)
            match acc with
            | none => some avg
            | some m => some (min m avg)) acc = some m → 0 ≤ m := by
  intro l
  induction l with
  | nil => intro acc hacc m hm; exact hacc m hm
  | cons cid rest ih =>
      intro acc hacc m hm
      refine ih _ ?_ m hm
      intro m' hm'
      dsimp only at hm'
      split_ifs at hm' with h1 h2
      · exact hacc m' hm'
      · exact hacc m' hm'
      · have havg : 0 ≤ ((clusterPts cid positions A).map
            (fun q => hD (positions.getD i (0, 0)) q)).sum /
              (((clusterPts cid positions A).length : ℕ) : ℝ) := by
          apply div_nonneg
          · apply List.sum_nonneg
            intro x hx
            obtain ⟨q, _, rfl⟩ := List.mem_map.mp hx
            exact hD_nonneg _ _
          · positivity
        rcases hval : acc with _ | m0
        · rw [hval] at hm'
          simp only [Option.some.injEq] at hm'
          rw [← hm']
          exact havg
        · rw [hval] at hm'
          simp only [Option.some.injEq] at hm'
          rw [← hm']
          exact le_min (hacc m0 hval) havg

lemma avgNearest_nonneg (i : ℕ) (positions : List Pt) (A : List ℤ) (cents : List Pt) :
    0 ≤ calculateAverageDistanceToNearestCluster i positions A cents := by
  unfold calculateAverageDistanceToNearestCluster
  dsimp only
  rcases hr : (List.range cents.length).foldl _ none with _ | m
  · exact le_refl 0
  · exact avgNearest_fold_nonneg i positions A (List.range cents.length) none
      (by intro m hm; cases hm) m hr

lemma list_sum_abs_le : ∀ (l : List ℝ), (∀ v ∈ l, |v| ≤ 1) → |l.sum| ≤ (l.length : ℝ) := by
  intro l
  induction l with
  | nil => intro _; simp
  | cons x rest ih =>
      intro h
      have h1 : |x| ≤ 1 := h x (List.mem_cons_self x rest)
      have h2 : |rest.sum| ≤ (rest.length : ℝ) := ih (fun v hv => h v (List.mem_cons_of_mem x hv))
      calc |(x :: rest).sum| = |x + rest.sum| := by simp
    _ ≤ |x| + |rest.sum| := abs_add _ _
    _ ≤ 1 + (rest.length : ℝ) := by linarith
    _ = ((x :: rest).length : ℝ) := by simp; ring

/-- C6: for every valid position list and any assignments/centroids, the
silhouette score lies in `[-1, 1]`, and it is exactly `0` when there are at
most one position or at most one centroid. -/
theorem claim_C6 (positions : List Pt) (A : List ℤ) (cents : List Pt)
    (hv : ∀ p ∈ positions, -90 ≤ p.1 ∧ p.1 ≤ 90 ∧ -180 ≤ p.2 ∧ p.2 ≤ 180) :
    (-1 ≤ calculateSilhouetteScore positions A cents ∧
      calculateSilhouetteScore positions A cents ≤ 1) ∧
      ((positions.length ≤ 1 ∨ cents.length ≤ 1) →
        calculateSilhouetteScore positions A cents = 0) := by
  unfold calculateSilhouetteScore
  split_ifs with h
  · exact ⟨⟨by norm_num, by norm_num⟩, fun _ => rfl⟩
  · refine ⟨?_, fun hcon => absurd hcon h⟩
    push_neg at h
    dsimp only
    have hbound : ∀ v ∈ (List.range positions.length).map (fun i =>
        if calculateAverageDistanceToSameCluster i positions A = 0 ∧
            calculateAverageDistanceToNearestCluster i positions A cents = 0 then (0 : ℝ)
        else (calculateAverageDistanceToNearestCluster i positions A cents -
            calculateAverageDistanceToSameCluster i positions A) /
          max (calculateAverageDistanceToSameCluster i positions A)
            (calculateAverageDistanceToNearestCluster i positions A cents)), |v| ≤ 1 := by
      intro v hv'
      obtain ⟨i, _, rfl⟩ := List.mem_map.mp hv'
      set a := calculateAverageDistanceToSameCluster i positions A with ha
      set b := calculateAverageDistanceToNearestCluster i positions A cents with hb
      have ha0 : 0 ≤ a := avgSame_nonneg i positions A
      have hb0 : 0 ≤ b := avgNearest_nonneg i positions A cents
      split_ifs with hz
      · simp
      · have hmax : 0 < max a b := by
          by_cases haz : a = 0
          · have hbz : b ≠ 0 := fun hbz => hz ⟨haz, hbz⟩
            have hbp : 0 < b := lt_of_le_of_ne hb0 (Ne.symm hbz)
            exact lt_of_lt_of_le hbp (le_max_right a b)
          · have hap : 0 < a := lt_of_le_of_ne ha0 (Ne.symm haz)
            exact lt_of_lt_of_le hap (le_max_left a b)
        have hnum : |b - a| ≤ max a b := by
          rw [abs_le]
          constructor
          · have : a ≤ max a b := le_max_left a b
            linarith
          · have : b ≤ max a b := le_max_right a b
            linarith
        rw [abs_div, abs_of_pos hmax, div_le_one hmax]
        exact hnum
    have final : ∀ (l : List ℝ), (∀ v ∈ l, |v| ≤ 1) → 0 < l.length →
        -1 ≤ l.sum / (l.length : ℝ) ∧ l.sum / (l.length : ℝ) ≤ 1 := by
      intro l hb hlpos
      have hs := list_sum_abs_le l hb
      obtain ⟨hs1, hs2⟩ := abs_le.mp hs
      have hpos : (0 : ℝ) < (l.length : ℝ) := by exact_mod_cast hlpos
      constructor
      · rw [le_div_iff hpos]
        linarith
      · rw [div_le_one hpos]
        exact hs2
    exact final _ hbound (by simp; omega)

/-- Witness for C6 on a one-point instance (the `N ≤ 1` branch). -/
theorem claim_C6_witness :
    ((-1 ≤ calculateSilhouetteScore [((0 : ℝ), (0 : ℝ))] [0] [] ∧
      calculateSilhouetteScore [((0 : ℝ), (0 : ℝ))] [0] [] ≤ 1) ∧
      (([((0 : ℝ), (0 : ℝ))].length ≤ 1 ∨ ([] : List Pt).length ≤ 1) →
        calculateSilhouetteScore [((0 : ℝ), (0 : ℝ))] [0] [] = 0)) :=
  claim_C6 [((0 : ℝ), (0 : ℝ))] [0] [] (by
    intro p hp
    simp at hp
    subst hp
    norm_num)

/-! ## Density clustering (`calculateClusteringMetrics`) -/

/-- `epsilon = 500` km, the fixed neighbourhood radius. -/
def epsilon : ℝ := 500

/-- `minPoints = 3`, the cluster-seeding threshold. -/
def minPoints : ℕ := 3

/-- `getNeighbors(pointIndex)` from the source: indices of all other
points within `epsilon`. -/
def getNeighbors (positions : List Pt) (i : ℕ) : List ℕ :=
  (List.range positions.length).filter (fun j =>
    decide (j ≠ i ∧ hD (positions.getD i (0, 0)) (positions.getD j (0, 0)) ≤ epsilon))

lemma getNeighbors_length_le (positions : List Pt) (i : ℕ) :
    (getNeighbors positions i).length ≤ positions.length := by
  unfold getNeighbors
  calc (List.filter _ (List.range positions.length)).length
      ≤ (List.range positions.length).length := List.length_filter_le _ _
    _ = positions.length := List.length_range _

lemma countFalse_set : ∀ (l : List Bool) (i : ℕ), l.getD i true = false →
    (l.set i true).countP (fun b => !b) + 1 = l.countP (fun b => !b) := by
  intro l
  induction l with
  | nil => intro i h; simp at h
  | cons b rest ih =>
      intro i h
      cases i with
      | zero =>
          simp only [List.getD_cons_zero] at h
          subst h
          simp [List.countP_cons]
      | succ n =>
          simp only [List.getD_cons_succ] at h
          simp only [List.set_cons_succ, List.countP_cons]
          rw [← ih n h]
          omega

lemma push_foldl_length_le {α : Type} (f : List α → α → List α)
    (hf : ∀ s x, (f s x).length ≤ s.length + 1) :
    ∀ (l : List α) (s : List α), (l.foldl f s).length ≤ s.length + l.length := by
  intro l
  induction l with
  | nil => intro s; simp
  | cons x rest ih =>
      intro s
      simp only [List.foldl_cons, List.length_cons]
      calc (rest.foldl f (f s x)).length ≤ (f s x).length + rest.length := ih (f s x)
        _ ≤ s.length + 1 + rest.length := by have := hf s x; omega
        _ = s.length + (rest.length + 1) := by omega

/-- One pass of `for (const neighbor of pointNeighbors)`: push each
neighbour that is unvisited and not already in the seed set. -/
def absorbSeeds (visited' : List Bool) (nbrs : List ℕ) (seedSet : List ℕ) : List ℕ :=
  nbrs.foldl (fun s nb =>
    if ¬ (visited'.getD nb true = true) ∧ nb ∉ s then s ++ [nb] else s) seedSet

lemma absorbSeeds_length_le (visited' : List Bool) (nbrs seedSet : List ℕ) :
    (absorbSeeds visited' nbrs seedSet).length ≤ seedSet.length + nbrs.length := by
  unfold absorbSeeds
  refine push_foldl_length_le _ ?_ nbrs seedSet
  intro s x
  split_ifs <;> simp

/-- The seed-set expansion loop of the density clustering pass
(`for (let j = 0; j < seedSet.length; j++) { ... }`): visit unvisited seed
points, absorb the qualifying neighbours of core points into the seed set,
and assign every still-noise seed point to the current cluster. -/
def expandCluster (positions : List Pt) (clusterId : ℤ) (visited : List Bool)
    (assign : List ℤ) (seedSet : List ℕ) (j : ℕ) : List Bool × List ℤ :=
  if h : j < seedSet.length then
    let cp := seedSet.getD j 0
    if hv : visited.getD cp true = true then
      let assign' := if assign.getD cp 0 = -1 then assign.set cp clusterId else assign
      expandCluster positions clusterId visited assign' seedSet (j + 1)
    else
      let visited' := visited.set cp true
      let nbrs := getNeighbors positions cp
      let seedSet' :=
        if minPoints - 1 ≤ nbrs.length then absorbSeeds visited' nbrs seedSet else seedSet
      let assign' := if assign.getD cp 0 = -1 then assign.set cp clusterId else assign
      expandCluster positions clusterId visited' assign' seedSet' (j + 1)
  else (visited, assign)
termination_by visited.countP (fun b => !b) * (positions.length + 1) + (seedSet.length - j)
decreasing_by
  · omega
  · have hcp : visited.getD (seedSet.getD j 0) true = false := by
      rcases hb : visited.getD (seedSet.getD j 0) true with _ | _
      · rfl
      · exact absurd hb hv
    have hdec := countFalse_set visited (seedSet.getD j 0) hcp
    have hlen : (if _h' : minPoints - 1 ≤ (getNeighbors positions (seedSet.getD j 0)).length then
          absorbSeeds (visited.set (seedSet.getD j 0) true)
            (getNeighbors positions (seedSet.getD j 0)) seedSet
        else seedSet).length ≤ seedSet.length + positions.length := by
      split_ifs with hmin
      · have h1 := absorbSeeds_length_le (visited.set (seedSet.getD j 0) true)
          (getNeighbors positions (seedSet.getD j 0)) seedSet
        have h2 := getNeighbors_length_le positions (seedSet.getD j 0)
        omega
      · omega
    have hprod : (visited.set (seedSet.getD j 0) true).countP (fun b => !b) *
          (positions.length + 1) + (positions.length + 1) =
        visited.countP (fun b => !b) * (positions.length + 1) := by
      rw [← hdec]
      ring
    omega

lemma assignWrite_spec (assign : List ℤ) (cp : ℕ) (cid : ℤ) :
    (if assign.getD cp 0 = -1 then assign.set cp cid else assign).length = assign.length ∧
      ∀ a ∈ (if assign.getD cp 0 = -1 then assign.set cp cid else assign),
        a ∈ assign ∨ a = cid := by
  split_ifs with h
  · exact ⟨List.length_set _ _ _, fun a ha => List.mem_or_eq_of_mem_set ha⟩
  · exact ⟨rfl, fun a ha => Or.inl ha⟩

/-- The expansion loop only ever writes the current cluster id: every final
assignment is an original one or `clusterId`, and the array length is
unchanged. -/
lemma expandCluster_spec (positions : List Pt) (clusterId : ℤ) :
    ∀ (visited : List Bool) (assign : List ℤ) (seedSet : List ℕ) (j : ℕ),
      (expandCluster positions clusterId visited assign seedSet j).2.length = assign.length ∧
        ∀ a ∈ (expandCluster positions clusterId visited assign seedSet j).2,
          a ∈ assign ∨ a = clusterId := by
  intro visited assign seedSet j
  induction visited, assign, seedSet, j using expandCluster.induct positions clusterId with
  | case1 visited assign seedSet j hj cp hv assign' ih =>
      rw [expandCluster, dif_pos hj]
      dsimp only
      rw [dif_pos (show visited.getD (seedSet.getD j 0) true = true from hv)]
      have hw := assignWrite_spec assign (seedSet.getD j 0) clusterId
      constructor
      · exact ih.1.trans hw.1
      · intro a ha
        rcases ih.2 a ha with h | h
        · exact hw.2 a h
        · exact Or.inr h
  | case2 visited assign seedSet j hj cp hv visited' nbrs seedSet' assign' ih =>
      rw [expandCluster, dif_pos hj]
      dsimp only
      rw [dif_neg (show ¬ visited.getD (seedSet.getD j 0) true = true from hv)]
      have hw := assignWrite_spec assign (seedSet.getD j 0) clusterId
      constructor
      · exact ih.1.trans hw.1
      · intro a ha
        rcases ih.2 a ha with h | h
        · exact hw.2 a h
        · exact Or.inr h
  | case3 visited assign seedSet j hj =>
      rw [expandCluster, dif_neg hj]
      exact ⟨rfl, fun a ha => Or.inl ha⟩

/-- One step of the outer DBSCAN scan of `calculateClusteringMetrics`: an
already visited index is skipped; an unvisited point with too few
neighbours is marked noise; an unvisited core point seeds cluster
`clusterCount` (then incremented) and the cluster is expanded. State is
(visited, assignments, clusterCount). -/
def dbscanStep (positions : List Pt) (st : List Bool × List ℤ × ℕ) (i : ℕ) :
    List Bool × List ℤ × ℕ :=
  if st.1.getD i true = true then st
  else
    let visited' := st.1.set i true
    let nbrs := getNeighbors positions i
    if nbrs.length < minPoints - 1 then (visited', st.2.1.set i (-1), st.2.2)
    else
      let clusterId : ℤ := (st.2.2 : ℤ)
      let r := expandCluster positions clusterId visited' (st.2.1.set i clusterId) nbrs 0
      (r.1, r.2, st.2.2 + 1)

/-- The outer `for` loop of the DBSCAN pass over all point indices. -/
def dbscanFold (positions : List Pt) : List Bool × List ℤ × ℕ :=
  (List.range positions.length).foldl (dbscanStep positions)
    (List.replicate positions.length false, List.replicate positions.length (-1), 0)

lemma dbscanStep_inv (positions : List Pt) (st : List Bool × List ℤ × ℕ) (i : ℕ)
    (h1 : st.2.1.length = positions.length)
    (h2 : ∀ a ∈ st.2.1, a = -1 ∨ (0 ≤ a ∧ a < (st.2.2 : ℤ))) :
    (dbscanStep positions st i).2.1.length = positions.length ∧
      (∀ a ∈ (dbscanStep positions st i).2.1,
        a = -1 ∨ (0 ≤ a ∧ a < ((dbscanStep positions st i).2.2 : ℤ))) ∧
      st.2.2 ≤ (dbscanStep positions st i).2.2 := by
  unfold dbscanStep
  dsimp only
  split_ifs with hvis hnoise
  · exact ⟨h1, h2, le_refl _⟩
  · refine ⟨by simpa using h1, ?_, le_refl _⟩
    intro a ha
    rcases List.mem_or_eq_of_mem_set ha with h | h
    · exact h2 a h
    · exact Or.inl h
  · dsimp only
    have hs := expandCluster_spec positions (st.2.2 : ℤ) (st.1.set i true)
      (st.2.1.set i (st.2.2 : ℤ)) (getNeighbors positions i) 0
    refine ⟨by rw [hs.1]; simpa using h1, ?_, by omega⟩
    intro a ha
    rcases hs.2 a ha with h | h
    · rcases List.mem_or_eq_of_mem_set h with h' | h'
      · rcases h2 a h' with hn | ⟨h3, h4⟩
        · exact Or.inl hn
        · refine Or.inr ⟨h3, ?_⟩
          push_cast
          push_cast at h4
          omega
      · subst h'
        refine Or.inr ⟨Int.natCast_nonneg _, by push_cast; omega⟩
    · subst h
      refine Or.inr ⟨Int.natCast_nonneg _, by push_cast; omega⟩

lemma dbscanFold_inv_aux (positions : List Pt) :
    ∀ (l : List ℕ) (st : List Bool × List ℤ × ℕ),
      st.2.1.length = positions.length →
      (∀ a ∈ st.2.1, a = -1 ∨ (0 ≤ a ∧ a < (st.2.2 : ℤ))) →
      ((l.foldl (dbscanStep positions) st).2.1.length = positions.length ∧
        ∀ a ∈ (l.foldl (dbscanStep positions) st).2.1,
          a = -1 ∨ (0 ≤ a ∧ a < ((l.foldl (dbscanStep positions) st).2.2 : ℤ))) := by
  intro l
  induction l with
  | nil => intro st h1 h2; exact ⟨h1, h2⟩
  | cons i rest ih =>
      intro st h1 h2
      simp only [List.foldl_cons]
      obtain ⟨s1, s2, _⟩ := dbscanStep_inv positions st i h1 h2
      exact ih (dbscanStep positions st i) s1 s2

/-- The fields of `calculateClusteringMetrics`'s result that the claims
mention (the source also derives `avgClusterSize`, `isolationIndex`,
`largestCluster` from these). -/
structure ClusteringMetrics where
  clusterCount : ℕ
  clusterAssignments : List ℤ
  clusterSizes : List ℕ
  noiseCount : ℕ

/-- The final counting loop of `calculateClusteringMetrics`: bump
`clusterSizes[assignment]` for cluster members and `noiseCount` for noise. -/
def sizesStep : List ℕ × ℕ → ℤ → List ℕ × ℕ := fun st a =>
  if a = -1 then (st.1, st.2 + 1)
  else (st.1.set a.toNat (st.1.getD a.toNat 0 + 1), st.2)

/-- `calculateClusteringMetrics(positions)` from the source (fixed
`epsilon = 500`, `minPoints = 3`), restricted to the fields the claims
mention. -/
def calculateClusteringMetrics (positions : List Pt) : ClusteringMetrics :=
  if positions.length = 0 then ⟨0, [], [], 0⟩
  else
    let r := dbscanFold positions
    let sz := r.2.1.foldl sizesStep (List.replicate r.2.2 0, 0)
    ⟨r.2.2, r.2.1, sz.1, sz.2⟩

lemma sum_set_inc : ∀ (l : List ℕ) (i : ℕ), i < l.length →
    (l.set i (l.getD i 0 + 1)).sum = l.sum + 1 := by
  intro l
  induction l with
  | nil => intro i h; simp at h
  | cons x rest ih =>
      intro i h
      cases i with
      | zero => simp [List.getD_cons_zero]; omega
      | succ n =>
          simp only [List.getD_cons_succ, List.set_cons_succ, List.sum_cons]
          rw [ih n (by simpa using h)]
          omega

lemma sizes_fold_spec : ∀ (asg : List ℤ) (szs : List ℕ) (noise : ℕ) (K : ℕ),
    szs.length = K → (∀ a ∈ asg, a = -1 ∨ (0 ≤ a ∧ a < (K : ℤ))) →
    ((asg.foldl sizesStep (szs, noise)).1.sum + (asg.foldl sizesStep (szs, noise)).2 =
        szs.sum + noise + asg.length) ∧
      (asg.foldl sizesStep (szs, noise)).2 = noise + asg.countP (fun a => decide (a = -1)) := by
  intro asg
  induction asg with
  | nil => intro szs noise K h1 h2; simp
  | cons a rest ih =>
      intro szs noise K h1 h2
      simp only [List.foldl_cons]
      by_cases ha : a = -1
      · have hstep : sizesStep (szs, noise) a = (szs, noise + 1) := by
          unfold sizesStep
          rw [if_pos ha]
        rw [hstep]
        obtain ⟨ih1, ih2⟩ := ih szs (noise + 1) K h1
          (fun a' ha' => h2 a' (List.mem_cons_of_mem a ha'))
        refine ⟨by rw [ih1]; simp; omega, ?_⟩
        rw [ih2, List.countP_cons]
        simp [ha]
        omega
      · have hbound : 0 ≤ a ∧ a < (K : ℤ) := by
          rcases h2 a (List.mem_cons_self a rest) with h | h
          · exact absurd h ha
          · exact h
        have hlt : a.toNat < szs.length := by
          rw [h1]
          omega
        have hstep : sizesStep (szs, noise) a =
            (szs.set a.toNat (szs.getD a.toNat 0 + 1), noise) := by
          unfold sizesStep
          rw [if_neg ha]
        rw [hstep]
        obtain ⟨ih1, ih2⟩ := ih (szs.set a.toNat (szs.getD a.toNat 0 + 1)) noise K
          (by rw [List.length_set]; exact h1)
          (fun a' ha' => h2 a' (List.mem_cons_of_mem a ha'))
        refine ⟨?_, ?_⟩
        · rw [ih1, sum_set_inc szs a.toNat hlt]
          simp
          omega
        · rw [ih2, List.countP_cons]
          simp [ha]
  -- the `decide (a = -1)` in countP evaluates to false in the cons case

/-- C5: density clustering leaves every point in exactly one final state —
one assignment per point, each either noise (`-1`) or a cluster id in
`[0, clusterCount)` — and the cluster sizes together with the noise count
partition the point set: `sum(clusterSizes) + noiseCount = N`. -/
theorem claim_C5 (positions : List Pt) :
    (calculateClusteringMetrics positions).clusterAssignments.length = positions.length ∧
      (∀ a ∈ (calculateClusteringMetrics positions).clusterAssignments,
        a = -1 ∨ (0 ≤ a ∧ a < ((calculateClusteringMetrics positions).clusterCount : ℤ))) ∧
      (calculateClusteringMetrics positions).clusterSizes.sum +
        (calculateClusteringMetrics positions).noiseCount = positions.length := by
  unfold calculateClusteringMetrics
  split_ifs with h0
  · refine ⟨by simpa using h0.symm, by intro a ha; exact absurd ha (List.not_mem_nil a), ?_⟩
    simpa using h0.symm
  · dsimp only
    have hinv := dbscanFold_inv_aux positions (List.range positions.length)
      (List.replicate positions.length false, List.replicate positions.length (-1), 0)
      (by simp) (by
        intro a ha
        left
        exact List.eq_of_mem_replicate ha)
    have hsz := sizes_fold_spec (dbscanFold positions).2.1
      (List.replicate (dbscanFold positions).2.2 0) 0 (dbscanFold positions).2.2
      (by simp) (by
        intro a ha
        exact hinv.2 a ha)
    refine ⟨hinv.1, fun a ha => hinv.2 a ha, ?_⟩
    have := hsz.1
    rw [this]
    simp [List.sum_replicate]
    exact hinv.1

/-! ## C1: behaviour of `performKMeansClustering` on an empty candidate
range -/

lemma perform_single_pt :
    performKMeansClustering [((0 : ℝ), (0 : ℝ))] (fun _ _ => 0) = ⟨2, [], [], []⟩ := by
  unfold performKMeansClustering
  rw [if_neg (by simp)]
  rfl

/-- C1, counterexample: on a single point the candidate-k range is empty,
but `performKMeansClustering` returns its initial `optimalK = 2`, not the
`k = 0` the spec promises (clusters, centroids and assignments are empty,
and no error occurs). -/
theorem claim_C1_counterexample :
    (performKMeansClustering [((0 : ℝ), (0 : ℝ))] (fun _ _ => 0)).k = 2 ∧
      (performKMeansClustering [((0 : ℝ), (0 : ℝ))] (fun _ _ => 0)).k ≠ 0 := by
  rw [perform_single_pt]
  exact ⟨rfl, by norm_num⟩

/-- C1, amended: `k = 0` is returned only for the empty list; for a
non-empty list whose candidate range is empty (fewer than 20 positions,
so `min(20, ⌊N/10⌋) < 2`), `performKMeansClustering` returns `k = 2` with
no clusters, no centroids and no assignments, and does not error. -/
theorem claim_C1_amended (positions : List Pt) (rand : ℕ → ℕ → ℝ)
    (h1 : positions ≠ []) (h2 : positions.length < 20) :
    performKMeansClustering positions rand = ⟨2, [], [], []⟩ := by
  unfold performKMeansClustering
  rw [if_neg h1]
  dsimp only
  have hmk : min 20 (positions.length / 10) - 1 = 0 := by omega
  rw [hmk]
  rfl

/-- Witness for C1 (amended) at a single point. -/
theorem claim_C1_witness :
    performKMeansClustering [((3 : ℝ), (4 : ℝ))] (fun _ _ => 1 / 2) = ⟨2, [], [], []⟩ :=
  claim_C1_amended [((3 : ℝ), (4 : ℝ))] (fun _ _ => 1 / 2) (by simp) (by norm_num)

/-! ## C2: inertia across refinement iterations

Concrete run refuting monotonicity: three equatorial points, two of them
straddling the antimeridian. After the seeding below, iteration 1 groups
`(0,-179)` and `(0,-90)` (inertia `2·(44.5°)²` of arc), but iteration 2
regroups `(0,179)` with `(0,-179)`, whose arithmetic mean longitude `0` is
on the far side of the planet, and inertia jumps to `2·(179°)²`. -/

/-- The three positions of the counterexample run. -/
def cex2pts : List Pt := [(0, 179), (0, -179), (0, -90)]

/-- The injected random stream: first draw 0 (pick the first point as the
first centroid), second draw `1/2500` (pick the second point as the second
centroid). -/
def cex2rand : ℕ → ℝ := fun n => if n = 0 then 0 else 1 / 2500

lemma arc_lt_arc {a b : ℝ} (h : a < b) :
    6371 * (a * Real.pi / 180) < 6371 * (b * Real.pi / 180) := by
  have hπ := Real.pi_pos
  nlinarith [mul_pos (sub_pos.mpr h) hπ]

lemma dist_179_179 : hD ((0 : ℝ), (179 : ℝ)) ((0 : ℝ), (179 : ℝ)) = 0 := hD_self _

lemma dist_m179_179 : hD ((0 : ℝ), (-179 : ℝ)) ((0 : ℝ), (179 : ℝ)) =
    6371 * (2 * Real.pi / 180) := by
  unfold hD
  rw [haversine_equator_far (by norm_num [abs_of_nonneg]) (by norm_num [abs_of_nonneg])]
  norm_num [abs_of_nonneg]

lemma dist_179_m179 : hD ((0 : ℝ), (179 : ℝ)) ((0 : ℝ), (-179 : ℝ)) =
    6371 * (2 * Real.pi / 180) := by
  unfold hD
  rw [haversine_equator_far (by norm_num [abs_of_nonneg]) (by norm_num [abs_of_nonneg])]
  norm_num [abs_of_nonneg]

lemma dist_m90_179 : hD ((0 : ℝ), (-90 : ℝ)) ((0 : ℝ), (179 : ℝ)) =
    6371 * (91 * Real.pi / 180) := by
  unfold hD
  rw [haversine_equator_far (by norm_num [abs_of_nonneg]) (by norm_num [abs_of_nonneg])]
  norm_num [abs_of_nonneg]

lemma dist_m90_m179 : hD ((0 : ℝ), (-90 : ℝ)) ((0 : ℝ), (-179 : ℝ)) =
    6371 * (89 * Real.pi / 180) := by
  unfold hD
  rw [haversine_equator_near (by norm_num [abs_of_nonneg])]
  norm_num [abs_of_nonneg]

lemma dist_m179_m179 : hD ((0 : ℝ), (-179 : ℝ)) ((0 : ℝ), (-179 : ℝ)) = 0 := hD_self _

lemma dist_179_m1345 : hD ((0 : ℝ), (179 : ℝ)) ((0 : ℝ), (-134.5 : ℝ)) =
    6371 * (46.5 * Real.pi / 180) := by
  unfold hD
  rw [haversine_equator_far (by norm_num [abs_of_nonneg]) (by norm_num [abs_of_nonneg])]
  norm_num [abs_of_nonneg]

lemma dist_m179_m1345 : hD ((0 : ℝ), (-179 : ℝ)) ((0 : ℝ), (-134.5 : ℝ)) =
    6371 * (44.5 * Real.pi / 180) := by
  unfold hD
  rw [haversine_equator_near (by norm_num [abs_of_nonneg])]
  norm_num [abs_of_nonneg]

lemma dist_m90_m1345 : hD ((0 : ℝ), (-90 : ℝ)) ((0 : ℝ), (-134.5 : ℝ)) =
    6371 * (44.5 * Real.pi / 180) := by
  unfold hD
  rw [haversine_equator_near (by norm_num [abs_of_nonneg])]
  norm_num [abs_of_nonneg]

lemma dist_179_0 : hD ((0 : ℝ), (179 : ℝ)) ((0 : ℝ), (0 : ℝ)) =
    6371 * (179 * Real.pi / 180) := by
  unfold hD
  rw [haversine_equator_near (by norm_num [abs_of_nonneg])]
  norm_num [abs_of_nonneg]

lemma dist_m179_0 : hD ((0 : ℝ), (-179 : ℝ)) ((0 : ℝ), (0 : ℝ)) =
    6371 * (179 * Real.pi / 180) := by
  unfold hD
  rw [haversine_equator_near (by norm_num [abs_of_nonneg])]
  norm_num [abs_of_nonneg]

lemma dist_m90_m90 : hD ((0 : ℝ), (-90 : ℝ)) ((0 : ℝ), (-90 : ℝ)) = 0 := hD_self _

/-- The assignment loop over exactly two centroids picks index 1 on strict
improvement, else 0. -/
lemma closest_two (p c0 c1 : Pt) :
    closestCentroid p [c0, c1] = if hD p c1 < hD p c0 then 1 else 0 := by
  unfold closestCentroid
  have hstep : ccAux p [c0, c1] 0 (0, none) =
      (if hD p c1 < hD p c0 then (1, some (hD p c1)) else (0, some (hD p c0))) := rfl
  rw [hstep]
  split_ifs with h <;> rfl

lemma assign_iter1 : assignStep cex2pts [((0 : ℝ), (179 : ℝ)), ((0 : ℝ), (-179 : ℝ))] =
    [0, 1, 1] := by
  have e1 : closestCentroid ((0 : ℝ), (179 : ℝ))
      [((0 : ℝ), (179 : ℝ)), ((0 : ℝ), (-179 : ℝ))] = 0 := by
    rw [closest_two, dist_179_m179, dist_179_179]
    exact if_neg (not_lt.mpr (by positivity))
  have e2 : closestCentroid ((0 : ℝ), (-179 : ℝ))
      [((0 : ℝ), (179 : ℝ)), ((0 : ℝ), (-179 : ℝ))] = 1 := by
    rw [closest_two, dist_m179_m179, dist_m179_179]
    exact if_pos (by positivity)
  have e3 : closestCentroid ((0 : ℝ), (-90 : ℝ))
      [((0 : ℝ), (179 : ℝ)), ((0 : ℝ), (-179 : ℝ))] = 1 := by
    rw [closest_two, dist_m90_m179, dist_m90_179]
    exact if_pos (arc_lt_arc (by norm_num))
  unfold assignStep cex2pts
  simp only [List.map]
  rw [e1, e2, e3]
  norm_num

lemma update_iter1 : updateStep cex2pts [0, 1, 1] [((0 : ℝ), (179 : ℝ)), ((0 : ℝ), (-179 : ℝ))] 2 =
    [((0 : ℝ), (179 : ℝ)), ((0 : ℝ), (-134.5 : ℝ))] := by
  unfold updateStep cex2pts
  norm_num [List.zip_cons_cons, List.foldl, List.map, show List.range 2 = [0, 1] from rfl]

lemma assign_iter2 : assignStep cex2pts [((0 : ℝ), (179 : ℝ)), ((0 : ℝ), (-134.5 : ℝ))] =
    [0, 0, 1] := by
  have e1 : closestCentroid ((0 : ℝ), (179 : ℝ))
      [((0 : ℝ), (179 : ℝ)), ((0 : ℝ), (-134.5 : ℝ))] = 0 := by
    rw [closest_two, dist_179_m1345, dist_179_179]
    exact if_neg (not_lt.mpr (by positivity))
  have e2 : closestCentroid ((0 : ℝ), (-179 : ℝ))
      [((0 : ℝ), (179 : ℝ)), ((0 : ℝ), (-134.5 : ℝ))] = 0 := by
    rw [closest_two, dist_m179_m1345, dist_m179_179]
    exact if_neg (not_lt.mpr (le_of_lt (arc_lt_arc (by norm_num))))
  have e3 : closestCentroid ((0 : ℝ), (-90 : ℝ))
      [((0 : ℝ), (179 : ℝ)), ((0 : ℝ), (-134.5 : ℝ))] = 1 := by
    rw [closest_two, dist_m90_m1345, dist_m90_179]
    exact if_pos (arc_lt_arc (by norm_num))
  unfold assignStep cex2pts
  simp only [List.map]
  rw [e1, e2, e3]
  norm_num

lemma update_iter2 : updateStep cex2pts [0, 0, 1] [((0 : ℝ), (179 : ℝ)), ((0 : ℝ), (-134.5 : ℝ))] 2 =
    [((0 : ℝ), (0 : ℝ)), ((0 : ℝ), (-90 : ℝ))] := by
  unfold updateStep cex2pts
  norm_num [List.zip_cons_cons, List.foldl, List.map, show List.range 2 = [0, 1] from rfl]

lemma minDist_single (p c : Pt) : minDistToCents p [c] = some (hD p c) := rfl

lemma init_eval : initializeCentroids cex2pts 2 cex2rand =
    [((0 : ℝ), (179 : ℝ)), ((0 : ℝ), (-179 : ℝ))] := by
  unfold initializeCentroids
  rw [if_neg (by simp [cex2pts])]
  dsimp only
  have hr0 : cex2rand 0 = 0 := by unfold cex2rand; norm_num
  rw [hr0]
  rw [show (⌊(0 : ℝ) * ((cex2pts.length : ℕ) : ℝ)⌋).toNat = 0 from by norm_num]
  rw [show List.range' 1 (2 - 1) = [1] from rfl]
  simp only [List.foldl]
  have hr1 : cex2rand 1 = 1 / 2500 := by unfold cex2rand; norm_num
  rw [hr1]
  unfold cex2pts
  simp only [List.getD_cons_zero, List.map, minDist_single]
  rw [dist_179_179, dist_m179_179, dist_m90_179]
  simp only [List.sum_cons, List.sum_nil]
  have hc0 : ¬((0 : ℝ) + (0 * 0) / (0 * 0 + (6371 * (2 * Real.pi / 180) *
      (6371 * (2 * Real.pi / 180)) + (6371 * (91 * Real.pi / 180) *
        (6371 * (91 * Real.pi / 180)) + 0))) ≥ 1 / 2500) := by
    rw [zero_mul, zero_div, add_zero]
    norm_num
  have hv : ((6371 : ℝ) * (Real.pi / 180)) ^ 2 ≠ 0 := by positivity
  have hval : (6371 : ℝ) * (2 * Real.pi / 180) * (6371 * (2 * Real.pi / 180)) /
      (0 * 0 + (6371 * (2 * Real.pi / 180) * (6371 * (2 * Real.pi / 180)) +
        (6371 * (91 * Real.pi / 180) * (6371 * (91 * Real.pi / 180)) + 0))) = 4 / 8285 := by
    rw [show (0 : ℝ) * 0 + (6371 * (2 * Real.pi / 180) * (6371 * (2 * Real.pi / 180)) +
        (6371 * (91 * Real.pi / 180) * (6371 * (91 * Real.pi / 180)) + 0)) =
      8285 * ((6371 : ℝ) * (Real.pi / 180)) ^ 2 from by ring]
    rw [show (6371 : ℝ) * (2 * Real.pi / 180) * (6371 * (2 * Real.pi / 180)) =
      4 * ((6371 : ℝ) * (Real.pi / 180)) ^ 2 from by ring]
    rw [mul_div_mul_right 4 8285 hv]
  have hc1 : ((0 : ℝ) + (0 * 0) / (0 * 0 + (6371 * (2 * Real.pi / 180) *
      (6371 * (2 * Real.pi / 180)) + (6371 * (91 * Real.pi / 180) *
        (6371 * (91 * Real.pi / 180)) + 0)))) +
      (6371 * (2 * Real.pi / 180) * (6371 * (2 * Real.pi / 180))) /
      (0 * 0 + (6371 * (2 * Real.pi / 180) * (6371 * (2 * Real.pi / 180)) +
        (6371 * (91 * Real.pi / 180) * (6371 * (91 * Real.pi / 180)) + 0))) ≥ 1 / 2500 := by
    rw [hval, zero_mul, zero_div, add_zero, zero_add]
    norm_num
  unfold cumFind
  rw [if_neg hc0]
  unfold cumFind
  rw [if_pos hc1]
  rfl

lemma state1_eval : iterState cex2pts 2 cex2rand 1 =
    ([0, 1, 1], [((0 : ℝ), (179 : ℝ)), ((0 : ℝ), (-134.5 : ℝ))]) := by
  have h0 : (iterState cex2pts 2 cex2rand 0).2 =
      [((0 : ℝ), (179 : ℝ)), ((0 : ℝ), (-179 : ℝ))] := init_eval
  show refineStep cex2pts 2 (iterState cex2pts 2 cex2rand 0).2 = _
  rw [h0]
  unfold refineStep
  dsimp only
  rw [assign_iter1, update_iter1]

lemma state2_eval : iterState cex2pts 2 cex2rand 2 =
    ([0, 0, 1], [((0 : ℝ), (0 : ℝ)), ((0 : ℝ), (-90 : ℝ))]) := by
  show refineStep cex2pts 2 (iterState cex2pts 2 cex2rand 1).2 = _
  rw [state1_eval]
  unfold refineStep
  dsimp only
  rw [assign_iter2, update_iter2]

lemma inertia_state1 : inertiaOf cex2pts [0, 1, 1]
    [((0 : ℝ), (179 : ℝ)), ((0 : ℝ), (-134.5 : ℝ))] =
    0 * 0 + (6371 * (44.5 * Real.pi / 180) * (6371 * (44.5 * Real.pi / 180)) +
      (6371 * (44.5 * Real.pi / 180) * (6371 * (44.5 * Real.pi / 180)) + 0)) := by
  unfold inertiaOf cex2pts
  simp only [List.zip_cons_cons, List.zip_nil_right, List.map, List.sum_cons, List.sum_nil]
  rw [show ((0 : ℤ)).toNat = 0 from rfl, show ((1 : ℤ)).toNat = 1 from rfl]
  simp only [List.getD_cons_zero, List.getD_cons_succ]
  rw [dist_179_179, dist_m179_m1345, dist_m90_m1345]

lemma inertia_state2 : inertiaOf cex2pts [0, 0, 1]
    [((0 : ℝ), (0 : ℝ)), ((0 : ℝ), (-90 : ℝ))] =
    6371 * (179 * Real.pi / 180) * (6371 * (179 * Real.pi / 180)) +
      (6371 * (179 * Real.pi / 180) * (6371 * (179 * Real.pi / 180)) + (0 * 0 + 0)) := by
  unfold inertiaOf cex2pts
  simp only [List.zip_cons_cons, List.zip_nil_right, List.map, List.sum_cons, List.sum_nil]
  rw [show ((0 : ℤ)).toNat = 0 from rfl, show ((1 : ℤ)).toNat = 1 from rfl]
  simp only [List.getD_cons_zero, List.getD_cons_succ]
  rw [dist_179_0, dist_m179_0, dist_m90_m90]

/-- C2, counterexample: in the run of `kMeansCluster`'s refinement loop on
`cex2pts` with `k = 2` and the seeding stream `cex2rand`, the inertia of
iteration 2's state is strictly greater than that of iteration 1's state —
inertia is not non-increasing across refinement iterations. -/
theorem claim_C2_counterexample :
    inertiaOf cex2pts (iterState cex2pts 2 cex2rand 1).1 (iterState cex2pts 2 cex2rand 1).2 <
      inertiaOf cex2pts (iterState cex2pts 2 cex2rand 2).1 (iterState cex2pts 2 cex2rand 2).2 := by
  rw [state1_eval, state2_eval]
  dsimp only
  rw [inertia_state1, inertia_state2]
  have hx : (0 : ℝ) < 6371 * (44.5 * Real.pi / 180) := by positivity
  have hxy : 6371 * (44.5 * Real.pi / 180) < 6371 * (179 * Real.pi / 180) :=
    arc_lt_arc (by norm_num)
  have hsq := mul_self_lt_mul_self (le_of_lt hx) hxy
  linarith

end WindBorne
